import Mathlib

/-
  Verification of the mesh-topology closure engine
  (`dolfin/mesh/TopologyComputation.cpp`).

  The state-passing embedding below mirrors the four functions of the
  source file: `compute_entities`, `compute_connectivity`,
  `compute_from_transpose` and `compute_from_intersection`, together with
  the vertex-containment helper `contains`.  Machine integers (`dolfin::uint`)
  only ever hold entity counts and indices here, so they are modelled as
  `Nat`.  The mutual recursion of `compute_connectivity` and
  `compute_entities` is embedded with an explicit fuel parameter; running
  out of fuel is distinguished from a fatal `dolfin_error`/`dolfin_assert`
  abort, and a fatal abort carries the state at the moment of the abort.
-/

namespace Dolfin

/-- Cell-shape oracle.  Modelled from the spec: `CellType` is not part of the
given sources; per the spec it supplies, for a cell type and an entity
dimension, the number of entities per cell, the number of vertices per entity,
and the table of local vertex-index tuples in canonical local order. -/
structure CellShape where
  num_entities : Nat → Nat
  num_vertices : Nat → Nat
  local_entities : Nat → List (List Nat)

/-- Modelled from the spec: `CellType::create_entities(entities, dim, vertices)`
produces, for each local tuple of the oracle's table, the corresponding global
vertex tuple of the given cell, in canonical local order. -/
def createEntities (ct : CellShape) (dim : Nat) (verts : List Nat) : List (List Nat) :=
  (ct.local_entities dim).map (fun t => t.map (fun j => verts.getD j 0))

/-- Mesh topology state.  Modelled from the spec (`MeshTopology` and
`MeshConnectivity` are not part of the given sources): `sizes d` is the entity
count `N_d` (0 when unknown), and `conn d0 d1` is the incidence store as a
ragged list of rows; per the spec, `MeshConnectivity.size()` is the number of
source entities of a present store, so a store with zero rows is "absent". -/
structure MState where
  sizes : Nat → Nat
  conn : Nat → Nat → List (List Nat)

/-- Write the incidence store `(a, b)` (MeshConnectivity::set). -/
def setConn (s : MState) (a b : Nat) (rows : List (List Nat)) : MState :=
  { s with conn := fun x y => if x = a ∧ y = b then rows else s.conn x y }

/-- Record the entity count of dimension `d` (MeshTopology::init). -/
def setSize (s : MState) (d n : Nat) : MState :=
  { s with sizes := fun x => if x = d then n else s.sizes x }

/-- Result of a topology computation: a produced value together with the
updated state, a fatal `dolfin_error`/`dolfin_assert` abort carrying the state
at the abort, or exhaustion of the recursion fuel. -/
inductive TCResult (α : Type) where
  | ok (a : α) (s : MState)
  | fatal (msg : String) (s : MState)
  | outOfFuel

/-- Sequencing of topology computations; fatal aborts and fuel exhaustion
propagate. -/
def tbind : TCResult α → (α → MState → TCResult β) → TCResult β
  | .ok a s, f => f a s
  | .fatal msg s, _ => .fatal msg s
  | .outOfFuel, _ => .outOfFuel

/-- State carried by a non-propagating result, for evaluating runs. -/
def TCResult.state? : TCResult α → Option MState
  | .ok _ s => some s
  | .fatal _ s => some s
  | .outOfFuel => none

/-- Value of a successful result. -/
def TCResult.val? : TCResult α → Option α
  | .ok a _ => some a
  | _ => none

/-- TopologyComputation::contains(v0, n0, v1, n1): every element of `v1`
occurs somewhere in `v0` (the two nested linear scans of the source). -/
def containsB (v0 v1 : List Nat) : Bool :=
  v1.all (fun x => v0.contains x)

/-- Append `v` to row `i` (writing at the row's next free position, which is
what `MeshConnectivity::set(e0, e1, tmp[e0]++)` does after the counting pass
pre-sized every row). -/
def updAppend (rows : List (List Nat)) (i v : Nat) : List (List Nat) :=
  rows.set i ((rows.getD i []) ++ [v])

/-- The two passes of compute_from_transpose: for `e1` ascending over the
entities of dimension `d1` and `e0` over the row of `e1` in `(d1, d0)`,
append `e1` to the row of `e0` of the new `(d0, d1)` store, which has
`n0 = N_d0` rows. -/
def transposeRows (n1 : Nat) (rowsIn : List (List Nat)) (n0 : Nat) : List (List Nat) :=
  (List.range n1).foldl
    (fun rows e1 => (rowsIn.getD e1 []).foldl (fun rows e0 => updAppend rows e0 e1) rows)
    (List.replicate n0 [])

/-- TopologyComputation::compute_from_transpose. -/
def compute_from_transpose (s : MState) (d0 d1 : Nat) : TCResult Unit :=
  if (s.conn d1 d0).length = 0 then
    .fatal "transpose: connectivity d1 - d0 is missing" s
  else
    .ok () (setConn s d0 d1 (transposeRows (s.sizes d1) (s.conn d1 d0) (s.sizes d0)))

/-- One step of the candidate collection of compute_from_intersection: push
`e1` when it satisfies the retention test and was not already collected. -/
def dedupStep (keep : Nat → Bool) (acc : List Nat) (e1 : Nat) : List Nat :=
  if keep e1 = true ∧ e1 ∉ acc then acc ++ [e1] else acc

/-- Row of the source entity in compute_from_intersection: walk the row of
`e0` in `(d0, d)`, then for each intermediate entity its row in `(d, d1)`,
collecting candidates. -/
def intersectRow (keep : Nat → Bool) (rowA : List Nat) (rowsB : List (List Nat)) : List Nat :=
  rowA.foldl (fun acc e => (rowsB.getD e []).foldl (dedupStep keep) acc) []

/-- The retention test of compute_from_intersection: no self-reference when
`d0 = d1`, vertex containment (via the `(d0, 0)` and `(d1, 0)` stores)
otherwise. -/
def keepTest (s : MState) (d0 d1 e0 : Nat) : Nat → Bool :=
  fun e1 =>
    if d0 = d1 then decide (e1 ≠ e0)
    else containsB ((s.conn d0 0).getD e0 []) ((s.conn d1 0).getD e1 [])

/-- TopologyComputation::compute_from_intersection. -/
def compute_from_intersection (s : MState) (d0 d1 d : Nat) : TCResult Unit :=
  if ¬ d1 ≤ d0 then .fatal "intersection: requires d0 >= d1" s
  else if (s.conn d0 d).length = 0 then .fatal "intersection: connectivity d0 - d is missing" s
  else if (s.conn d d1).length = 0 then .fatal "intersection: connectivity d - d1 is missing" s
  else
    .ok () (setConn s d0 d1 ((List.range (s.sizes d0)).map (fun e0 =>
      intersectRow (keepTest s d0 d1 e0) ((s.conn d0 d).getD e0 []) (s.conn d d1))))

/-- Sorting of a candidate vertex tuple (`std::sort` on the entity's vertex
vector, ascending). -/
def sortKey (t : List Nat) : List Nat := List.insertionSort (· ≤ ·) t

/-- The search of compute_entities: scan the cells `c0` connected to `c`
(skipping `c0 >= c`), and in each one the recorded (index, sorted tuple)
pairs, returning the index of the first pair whose tuple equals `key`. -/
def findEntityIn (ceList : List (List (Nat × List Nat))) (c : Nat) (adjRow : List Nat)
    (key : List Nat) : Option Nat :=
  adjRow.findSome? (fun c0 =>
    if c0 < c then (ceList.getD c0 []).findSome? (fun p => if p.2 = key then some p.1 else none)
    else none)

/-- Loop state of the entity-generation pass of compute_entities. -/
structure EntAcc where
  ceList : List (List (Nat × List Nat))
  connCe : List (List Nat)
  connEv : List (List Nat)
  counter : Nat

/-- Loop state while processing the entity slots of one cell. -/
structure CellAcc where
  myList : List (Nat × List Nat)
  myCe : List Nat
  connEv : List (List Nat)
  counter : Nat

/-- Processing of one entity slot of cell `c`: sort the candidate tuple, look
it up among previously visited connected cells; on a hit record the found
index, otherwise create a new entity. -/
def slotStep (prev : List (List (Nat × List Nat))) (c : Nat) (adjRow : List Nat)
    (st : CellAcc) (tup : List Nat) : CellAcc :=
  let key := sortKey tup
  match findEntityIn prev c adjRow key with
  | some e => { st with myCe := st.myCe ++ [e] }
  | none =>
    { myList := st.myList ++ [(st.counter, key)]
      myCe := st.myCe ++ [st.counter]
      connEv := st.connEv ++ [key]
      counter := st.counter + 1 }

/-- Processing of one cell of compute_entities: handle its candidate tuples in
local-slot order, then record its entity list and its cell-entity row. -/
def processCell (acc : EntAcc) (c : Nat) (adjRow : List Nat) (tuples : List (List Nat)) :
    EntAcc :=
  let r := tuples.foldl (slotStep acc.ceList c adjRow) ⟨[], [], acc.connEv, acc.counter⟩
  { ceList := acc.ceList ++ [r.myList]
    connCe := acc.connCe ++ [r.myCe]
    connEv := r.connEv
    counter := r.counter }

/-- The entity-generation pass of compute_entities over all cells in ascending
index order. -/
def entitiesOfCells (ct : CellShape) (dim numCells : Nat) (cellVerts adj : List (List Nat)) :
    EntAcc :=
  (List.range numCells).foldl
    (fun acc c => processCell acc c (adj.getD c []) (createEntities ct dim (cellVerts.getD c [])))
    ⟨[], [], [], 0⟩

/-- A request to the engine: compute the entities of one dimension, or the
connectivity of a pair of dimensions. -/
inductive Req where
  | ents (dim : Nat)
  | conn (d0 d1 : Nat)

/-- The mutually recursive pair TopologyComputation::compute_entities /
TopologyComputation::compute_connectivity, merged into one fuel-indexed
function.  `ct` is the mesh's cell type and `D` its topological dimension;
both are fixed for the mesh.  Every branch mirrors the source: the
early-return and error checks of compute_entities, its generation pass, and
the cache check, entity-ensuring, empty-mesh return, re-check, and
transpose/intersection dispatch of compute_connectivity. -/
def run (ct : CellShape) (D : Nat) : Nat → MState → Req → TCResult Nat
  | 0, _, _ => .outOfFuel
  | fuel+1, s, .ents dim =>
    if 0 < s.sizes dim then
      if ((s.conn D dim).length = 0 ∧ dim ≠ D) ∨ ((s.conn dim 0).length = 0 ∧ dim ≠ 0) then
        .fatal "entities exist but connectivity is missing" s
      else .ok (s.sizes dim) s
    else if 0 < (s.conn D dim).length ∨ 0 < (s.conn dim 0).length then
      .fatal "connectivity exists but entities are missing" s
    else
      tbind (run ct D fuel s (.conn D D)) (fun _ s1 =>
        let r := entitiesOfCells ct dim (s1.sizes D) (s1.conn D 0) (s1.conn D D)
        .ok r.connEv.length
          (setConn (setConn (setSize s1 dim r.connEv.length) D dim r.connCe) dim 0 r.connEv))
  | fuel+1, s, .conn d0 d1 =>
    if 0 < (s.conn d0 d1).length then .ok 0 s
    else
      tbind (if s.sizes d0 = 0 then run ct D fuel s (.ents d0) else .ok 0 s) (fun _ sa =>
      tbind (if sa.sizes d1 = 0 then run ct D fuel sa (.ents d1) else .ok 0 sa) (fun _ sb =>
      if sb.sizes d0 = 0 ∧ sb.sizes d1 = 0 then .ok 0 sb
      else if 0 < (sb.conn d0 d1).length then .ok 0 sb
      else if d0 < d1 then
        tbind (run ct D fuel sb (.conn d1 d0)) (fun _ sc =>
        tbind (compute_from_transpose sc d0 d1) (fun _ sd => .ok 0 sd))
      else if 0 < d0 ∧ d1 = 0 then
        .fatal "assert: these connections should already exist" sb
      else
        tbind (run ct D fuel sb (.conn d0 (if d0 = 0 ∧ d1 = 0 then D else 0))) (fun _ sc =>
        tbind (run ct D fuel sc (.conn (if d0 = 0 ∧ d1 = 0 then D else 0) d1)) (fun _ sd =>
        tbind (compute_from_intersection sd d0 d1 (if d0 = 0 ∧ d1 = 0 then D else 0))
          (fun _ se => .ok 0 se)))))

/-- TopologyComputation::compute_entities, as a fuel-indexed computation. -/
def compute_entities (ct : CellShape) (D fuel : Nat) (s : MState) (dim : Nat) : TCResult Nat :=
  run ct D fuel s (.ents dim)

/-- TopologyComputation::compute_connectivity, as a fuel-indexed
computation. -/
def compute_connectivity (ct : CellShape) (D fuel : Nat) (s : MState) (d0 d1 : Nat) :
    TCResult Nat :=
  run ct D fuel s (.conn d0 d1)

/-- The triangle cell type of the reference oracle: local edge `k` opposes
local vertex `k`. -/
def triShape : CellShape where
  num_entities := fun d => if d = 0 then 3 else if d = 1 then 3 else if d = 2 then 1 else 0
  num_vertices := fun d => if d = 0 then 1 else if d = 1 then 2 else if d = 2 then 3 else 0
  local_entities := fun d =>
    if d = 0 then [[0], [1], [2]]
    else if d = 1 then [[1, 2], [0, 2], [0, 1]]
    else if d = 2 then [[0, 1, 2]] else []

/-- A freshly constructed mesh: vertex and cell counts known, only the
cell-vertex incidence present. -/
def initState (D nv : Nat) (cells : List (List Nat)) : MState where
  sizes := fun d => if d = 0 then nv else if d = D then cells.length else 0
  conn := fun a b => if a = D ∧ b = 0 then cells else []

/-- Extract a connectivity from the state of a run, for evaluating concrete
scenarios. -/
def connOf (r : TCResult α) (a b : Nat) : Option (List (List Nat)) :=
  r.state?.map (fun s => s.conn a b)

example :
    (compute_entities triShape 2 12 (initState 2 3 [[0, 1, 2]]) 1).val? = some 3 := by decide

example :
    connOf (compute_entities triShape 2 12 (initState 2 3 [[0, 1, 2]]) 1) 1 0 =
      some [[1, 2], [0, 2], [0, 1]] := by decide

example :
    connOf (compute_entities triShape 2 12 (initState 2 3 [[0, 1, 2]]) 1) 2 1 =
      some [[0, 1, 2]] := by decide

example :
    (compute_entities triShape 2 12 (initState 2 4 [[0, 1, 2], [1, 3, 2]]) 1).val? = some 5 := by
  decide

/-! Basic lemmas about the state operations and the fuel-indexed engine. -/

theorem tbind_assoc (x : TCResult α) (f : α → MState → TCResult β) (g : β → MState → TCResult γ) :
    tbind (tbind x f) g = tbind x (fun a s => tbind (f a s) g) := by
  cases x <;> rfl

theorem setConn_conn_self (s : MState) (a b : Nat) (rows : List (List Nat)) :
    (setConn s a b rows).conn a b = rows := by
  simp [setConn]

theorem setConn_conn_ne (s : MState) (a b x y : Nat) (rows : List (List Nat))
    (h : ¬ (x = a ∧ y = b)) : (setConn s a b rows).conn x y = s.conn x y := by
  simp [setConn, h]

theorem setConn_sizes (s : MState) (a b : Nat) (rows : List (List Nat)) :
    (setConn s a b rows).sizes = s.sizes := rfl

theorem setSize_conn (s : MState) (d n : Nat) : (setSize s d n).conn = s.conn := rfl

theorem setSize_sizes_self (s : MState) (d n : Nat) : (setSize s d n).sizes d = n := by
  simp [setSize]

theorem setSize_sizes_ne (s : MState) (d n x : Nat) (h : x ≠ d) :
    (setSize s d n).sizes x = s.sizes x := by
  simp [setSize, h]

theorem run_ents_succ (ct : CellShape) (D fuel : Nat) (s : MState) (dim : Nat) :
    run ct D (fuel+1) s (.ents dim) =
      (if 0 < s.sizes dim then
        if ((s.conn D dim).length = 0 ∧ dim ≠ D) ∨ ((s.conn dim 0).length = 0 ∧ dim ≠ 0) then
          .fatal "entities exist but connectivity is missing" s
        else .ok (s.sizes dim) s
      else if 0 < (s.conn D dim).length ∨ 0 < (s.conn dim 0).length then
        .fatal "connectivity exists but entities are missing" s
      else
        tbind (run ct D fuel s (.conn D D)) (fun _ s1 =>
          let r := entitiesOfCells ct dim (s1.sizes D) (s1.conn D 0) (s1.conn D D)
          .ok r.connEv.length
            (setConn (setConn (setSize s1 dim r.connEv.length) D dim r.connCe) dim 0
              r.connEv))) := rfl

theorem run_conn_succ (ct : CellShape) (D fuel : Nat) (s : MState) (d0 d1 : Nat) :
    run ct D (fuel+1) s (.conn d0 d1) =
      (if 0 < (s.conn d0 d1).length then .ok 0 s
      else
        tbind (if s.sizes d0 = 0 then run ct D fuel s (.ents d0) else .ok 0 s) (fun _ sa =>
        tbind (if sa.sizes d1 = 0 then run ct D fuel sa (.ents d1) else .ok 0 sa) (fun _ sb =>
        if sb.sizes d0 = 0 ∧ sb.sizes d1 = 0 then .ok 0 sb
        else if 0 < (sb.conn d0 d1).length then .ok 0 sb
        else if d0 < d1 then
          tbind (run ct D fuel sb (.conn d1 d0)) (fun _ sc =>
          tbind (compute_from_transpose sc d0 d1) (fun _ sd => .ok 0 sd))
        else if 0 < d0 ∧ d1 = 0 then
          .fatal "assert: these connections should already exist" sb
        else
          tbind (run ct D fuel sb (.conn d0 (if d0 = 0 ∧ d1 = 0 then D else 0))) (fun _ sc =>
          tbind (run ct D fuel sc (.conn (if d0 = 0 ∧ d1 = 0 then D else 0) d1)) (fun _ sd =>
          tbind (compute_from_intersection sd d0 d1 (if d0 = 0 ∧ d1 = 0 then D else 0))
            (fun _ se => .ok 0 se)))))) := rfl

/-! C7: once a connectivity is present, or entities exist with their
connectivities, a recomputation request is a no-op. -/

/-- C7.  Recomputation is idempotent: requesting `compute_connectivity(d0, d1)`
when `Conn[d0][d1]` is already present returns with the state untouched, and
requesting `compute_entities(dim)` when the entities of dimension `dim` already
exist together with the connectivities the consistency check demands returns
their count with the state untouched; hence a second request yields the
identical stored arrays. -/
theorem recompute_requests_are_noops
    (ct : CellShape) (D fuel : Nat) (s : MState) (d0 d1 dim : Nat)
    (hconn : 0 < (s.conn d0 d1).length)
    (hsz : 0 < s.sizes dim)
    (hcons : ¬ (((s.conn D dim).length = 0 ∧ dim ≠ D) ∨ ((s.conn dim 0).length = 0 ∧ dim ≠ 0))) :
    compute_connectivity ct D (fuel+1) s d0 d1 = .ok 0 s ∧
    compute_entities ct D (fuel+1) s dim = .ok (s.sizes dim) s := by
  constructor
  · rw [compute_connectivity, run_conn_succ, if_pos hconn]
  · rw [compute_entities, run_ents_succ, if_pos hsz, if_neg hcons]

/-- Witness for C7 on the state of the single-triangle mesh after its edges
have been computed. -/
theorem recompute_requests_are_noops_witness :
    (0 < ((((compute_entities triShape 2 12 (initState 2 3 [[0, 1, 2]]) 1).state?.getD
        (initState 2 3 [[0, 1, 2]])).conn 1 0)).length) ∧
    compute_connectivity triShape 2 9
        ((compute_entities triShape 2 12 (initState 2 3 [[0, 1, 2]]) 1).state?.getD
          (initState 2 3 [[0, 1, 2]])) 1 0 =
      .ok 0 ((compute_entities triShape 2 12 (initState 2 3 [[0, 1, 2]]) 1).state?.getD
          (initState 2 3 [[0, 1, 2]])) :=
  ⟨by decide,
   (recompute_requests_are_noops triShape 2 8
      ((compute_entities triShape 2 12 (initState 2 3 [[0, 1, 2]]) 1).state?.getD
        (initState 2 3 [[0, 1, 2]])) 1 0 1
      (by decide) (by decide) (by decide)).1⟩

/-! C8: the two inconsistency checks of compute_entities abort fatally
before any mutation. -/

/-- C8.  When `compute_entities(dim)` detects an inconsistent topology state —
entities of dimension `dim` exist but a required connectivity is missing, or a
connectivity exists while the entities are missing — it raises a fatal error
whose carried state is exactly the entry state, so every incidence and entity
count present before the call is left intact. -/
theorem inconsistent_state_error_before_mutation
    (ct : CellShape) (D fuel : Nat) (s : MState) (dim : Nat) :
    (0 < s.sizes dim →
      (((s.conn D dim).length = 0 ∧ dim ≠ D) ∨ ((s.conn dim 0).length = 0 ∧ dim ≠ 0)) →
      compute_entities ct D (fuel+1) s dim =
        .fatal "entities exist but connectivity is missing" s) ∧
    (s.sizes dim = 0 →
      (0 < (s.conn D dim).length ∨ 0 < (s.conn dim 0).length) →
      compute_entities ct D (fuel+1) s dim =
        .fatal "connectivity exists but entities are missing" s) := by
  constructor
  · intro hsz hbad
    rw [compute_entities, run_ents_succ, if_pos hsz, if_pos hbad]
  · intro hsz hbad
    rw [compute_entities, run_ents_succ, if_neg (by omega), if_pos hbad]

/-- Witness for C8: entities of dimension 1 recorded without any connectivity
(first check), and a present connectivity `(1, 0)` without entities (second
check). -/
theorem inconsistent_state_error_before_mutation_witness :
    (0 < (MState.mk (fun d => if d = 1 then 3 else 0) (fun _ _ => [])).sizes 1 ∧
      compute_entities triShape 2 8
          (MState.mk (fun d => if d = 1 then 3 else 0) (fun _ _ => [])) 1 =
        .fatal "entities exist but connectivity is missing"
          (MState.mk (fun d => if d = 1 then 3 else 0) (fun _ _ => []))) ∧
    ((MState.mk (fun _ => 0) (fun a b => if a = 1 ∧ b = 0 then [[0, 1]] else [])).sizes 1 = 0 ∧
      compute_entities triShape 2 8
          (MState.mk (fun _ => 0) (fun a b => if a = 1 ∧ b = 0 then [[0, 1]] else [])) 1 =
        .fatal "connectivity exists but entities are missing"
          (MState.mk (fun _ => 0) (fun a b => if a = 1 ∧ b = 0 then [[0, 1]] else []))) :=
  ⟨⟨by decide,
    (inconsistent_state_error_before_mutation triShape 2 7
        (MState.mk (fun d => if d = 1 then 3 else 0) (fun _ _ => [])) 1).1
      (by decide) (by decide)⟩,
   ⟨by decide,
    (inconsistent_state_error_before_mutation triShape 2 7
        (MState.mk (fun _ => 0) (fun a b => if a = 1 ∧ b = 0 then [[0, 1]] else [])) 1).2
      (by decide) (by decide)⟩⟩

/-! C3: the strategy dispatch of compute_connectivity. -/

/-- The entity-ensuring phase of compute_connectivity: compute the entities of
`d0` and then of `d1` whenever their counts are still unknown. -/
def ensureEnts (ct : CellShape) (D fuel : Nat) (s : MState) (d0 d1 : Nat) : TCResult Nat :=
  tbind (if s.sizes d0 = 0 then run ct D fuel s (.ents d0) else .ok 0 s) (fun _ sa =>
    if sa.sizes d1 = 0 then run ct D fuel sa (.ents d1) else .ok 0 sa)

theorem run_conn_eq_ensure (ct : CellShape) (D fuel : Nat) (s : MState) (d0 d1 : Nat) :
    run ct D (fuel+1) s (.conn d0 d1) =
      (if 0 < (s.conn d0 d1).length then .ok 0 s
      else
        tbind (ensureEnts ct D fuel s d0 d1) (fun _ sb =>
        if sb.sizes d0 = 0 ∧ sb.sizes d1 = 0 then .ok 0 sb
        else if 0 < (sb.conn d0 d1).length then .ok 0 sb
        else if d0 < d1 then
          tbind (run ct D fuel sb (.conn d1 d0)) (fun _ sc =>
          tbind (compute_from_transpose sc d0 d1) (fun _ sd => .ok 0 sd))
        else if 0 < d0 ∧ d1 = 0 then
          .fatal "assert: these connections should already exist" sb
        else
          tbind (run ct D fuel sb (.conn d0 (if d0 = 0 ∧ d1 = 0 then D else 0))) (fun _ sc =>
          tbind (run ct D fuel sc (.conn (if d0 = 0 ∧ d1 = 0 then D else 0) d1)) (fun _ sd =>
          tbind (compute_from_intersection sd d0 d1 (if d0 = 0 ∧ d1 = 0 then D else 0))
            (fun _ se => .ok 0 se))))) := by
  rw [run_conn_succ, ensureEnts, tbind_assoc]

/-- C3.  On a cache miss, after the entity-ensuring phase has produced state
`sb` in which the empty-mesh return and the present-again return do not fire,
compute_connectivity dispatches by: for `d0 < d1`, first ensuring `(d1, d0)`
and then transposing; otherwise composing through the intermediate dimension
`d*` with `d* = D` exactly when `d0 = 0` and `d1 = 0`, and `d* = 0` in every
other case (in particular the cell-cell adjacency request `(D, D)` of entity
synthesis is computed through vertex sharing, `d* = 0`, whenever `0 < D`). -/
theorem compute_connectivity_dispatch
    (ct : CellShape) (D fuel : Nat) (s sb : MState) (d0 d1 : Nat) (a : Nat)
    (hmiss : ¬ 0 < (s.conn d0 d1).length)
    (hens : ensureEnts ct D fuel s d0 d1 = .ok a sb)
    (hboth : ¬ (sb.sizes d0 = 0 ∧ sb.sizes d1 = 0))
    (hmiss2 : ¬ 0 < (sb.conn d0 d1).length) :
    (d0 < d1 →
      compute_connectivity ct D (fuel+1) s d0 d1 =
        tbind (compute_connectivity ct D fuel sb d1 d0) (fun _ sc =>
        tbind (compute_from_transpose sc d0 d1) (fun _ sd => .ok 0 sd))) ∧
    (¬ d0 < d1 → ¬ (0 < d0 ∧ d1 = 0) →
      ((d0 = 0 ∧ d1 = 0 →
        compute_connectivity ct D (fuel+1) s d0 d1 =
          tbind (compute_connectivity ct D fuel sb d0 D) (fun _ sc =>
          tbind (compute_connectivity ct D fuel sc D d1) (fun _ sd =>
          tbind (compute_from_intersection sd d0 d1 D) (fun _ se => .ok 0 se)))) ∧
      (¬ (d0 = 0 ∧ d1 = 0) →
        compute_connectivity ct D (fuel+1) s d0 d1 =
          tbind (compute_connectivity ct D fuel sb d0 0) (fun _ sc =>
          tbind (compute_connectivity ct D fuel sc 0 d1) (fun _ sd =>
          tbind (compute_from_intersection sd d0 d1 0) (fun _ se => .ok 0 se)))))) := by
  have base :
      compute_connectivity ct D (fuel+1) s d0 d1 =
        (if d0 < d1 then
          tbind (run ct D fuel sb (.conn d1 d0)) (fun _ sc =>
          tbind (compute_from_transpose sc d0 d1) (fun _ sd => .ok 0 sd))
        else if 0 < d0 ∧ d1 = 0 then
          .fatal "assert: these connections should already exist" sb
        else
          tbind (run ct D fuel sb (.conn d0 (if d0 = 0 ∧ d1 = 0 then D else 0))) (fun _ sc =>
          tbind (run ct D fuel sc (.conn (if d0 = 0 ∧ d1 = 0 then D else 0) d1)) (fun _ sd =>
          tbind (compute_from_intersection sd d0 d1 (if d0 = 0 ∧ d1 = 0 then D else 0))
            (fun _ se => .ok 0 se)))) := by
    rw [compute_connectivity, run_conn_eq_ensure, if_neg hmiss, hens]
    show (if sb.sizes d0 = 0 ∧ sb.sizes d1 = 0 then TCResult.ok 0 sb else _) = _
    rw [if_neg hboth, if_neg hmiss2]
  refine ⟨fun hlt => ?_, fun hge hnz => ⟨fun hzz => ?_, fun hnzz => ?_⟩⟩
  · rw [base, if_pos hlt]; rfl
  · rw [base, if_neg hge, if_neg hnz, if_pos hzz]; rfl
  · rw [base, if_neg hge, if_neg hnz, if_neg hnzz]; rfl

/-- Witness state for C3: edge count already known, edge-vertex incidence
present, `(1, 1)` absent. -/
def dispatchWitnessState : MState where
  sizes := fun d => if d ≤ 2 then 3 else 0
  conn := fun a b => if a = 1 ∧ b = 0 then [[1, 2], [0, 2], [0, 1]] else []

/-- Witness for C3 with the request `(1, 1)` (so `d0 ≥ d1`, not both zero:
intermediate dimension 0). -/
theorem compute_connectivity_dispatch_witness :
    (¬ 0 < ((dispatchWitnessState.conn 1 1)).length) ∧
    ensureEnts triShape 2 11 dispatchWitnessState 1 1 = .ok 0 dispatchWitnessState ∧
    compute_connectivity triShape 2 12 dispatchWitnessState 1 1 =
      tbind (compute_connectivity triShape 2 11 dispatchWitnessState 1 0) (fun _ sc =>
      tbind (compute_connectivity triShape 2 11 sc 0 1) (fun _ sd =>
      tbind (compute_from_intersection sd 1 1 0) (fun _ se => .ok 0 se))) :=
  ⟨by decide, rfl,
   ((compute_connectivity_dispatch triShape 2 11 dispatchWitnessState
        dispatchWitnessState 1 1 0
        (by decide) rfl (by decide) (by decide)).2
      (by decide) (by decide)).2 (by decide)⟩

/-! C6: ordering of the rows produced by compute_from_transpose. -/

theorem length_updAppend (rows : List (List Nat)) (i v : Nat) :
    (updAppend rows i v).length = rows.length := by
  simp [updAppend]

theorem getD_updAppend (rows : List (List Nat)) (i v j : Nat) :
    (updAppend rows i v).getD j [] =
      if i = j ∧ i < rows.length then rows.getD j [] ++ [v] else rows.getD j [] := by
  simp only [updAppend, List.getD_eq_getElem?_getD, List.getElem?_set]
  by_cases hij : i = j
  · subst hij
    by_cases hlen : i < rows.length
    · simp [hlen]
    · simp [hlen, List.getElem?_eq_none (Nat.le_of_not_lt hlen)]
  · simp [hij]

theorem foldl_updAppend_length (l : List Nat) (e1 : Nat) (rows : List (List Nat)) :
    (l.foldl (fun r x => updAppend r x e1) rows).length = rows.length := by
  induction l generalizing rows with
  | nil => rfl
  | cons x xs ih => rw [List.foldl_cons, ih, length_updAppend]

theorem foldl_updAppend_getD (l : List Nat) (e1 : Nat) (rows : List (List Nat)) (j : Nat) :
    (l.foldl (fun r x => updAppend r x e1) rows).getD j [] =
      rows.getD j [] ++ (if j < rows.length then List.replicate (l.count j) e1 else []) := by
  induction l generalizing rows with
  | nil => simp
  | cons x xs ih =>
    rw [List.foldl_cons, ih, length_updAppend, getD_updAppend]
    by_cases hlen : j < rows.length
    · by_cases hx : x = j
      · rw [if_pos ⟨hx, hx ▸ hlen⟩, if_pos hlen, if_pos hlen]
        simp [List.count_cons, hx, List.replicate_succ]
      · rw [if_neg (fun h : x = j ∧ x < rows.length => hx h.1), if_pos hlen, if_pos hlen]
        simp [List.count_cons, hx]
    · rw [if_neg (fun h : x = j ∧ x < rows.length => hlen (h.1 ▸ h.2)), if_neg hlen,
        if_neg hlen]

theorem transposeRows_succ (n : Nat) (rowsIn : List (List Nat)) (n0 : Nat) :
    transposeRows (n+1) rowsIn n0 =
      (rowsIn.getD n []).foldl (fun rows e0 => updAppend rows e0 n)
        (transposeRows n rowsIn n0) := by
  unfold transposeRows
  rw [List.range_succ, List.foldl_append, List.foldl_cons, List.foldl_nil]

theorem transposeRows_length (n1 : Nat) (rowsIn : List (List Nat)) (n0 : Nat) :
    (transposeRows n1 rowsIn n0).length = n0 := by
  induction n1 with
  | zero => simp [transposeRows]
  | succ n ih => rw [transposeRows_succ, foldl_updAppend_length, ih]

theorem transposeRows_getD (n1 : Nat) (rowsIn : List (List Nat)) (n0 j : Nat) :
    (transposeRows n1 rowsIn n0).getD j [] =
      if j < n0 then
        (List.range n1).flatMap (fun e1 => List.replicate ((rowsIn.getD e1 []).count j) e1)
      else [] := by
  induction n1 with
  | zero =>
    simp only [transposeRows, List.range_zero, List.foldl_nil, List.flatMap_nil]
    rw [List.getD_eq_getElem?_getD, List.getElem?_replicate]
    split <;> rfl
  | succ n ih =>
    rw [transposeRows_succ, foldl_updAppend_getD, transposeRows_length, ih,
      List.range_succ, List.flatMap_append]
    by_cases hj : j < n0
    · simp [hj]
    · simp [hj]

theorem sorted_le_flatMap_replicate (n : Nat) (g : Nat → Nat) :
    List.Sorted (· ≤ ·)
      ((List.range n).flatMap (fun e1 => List.replicate (g e1) e1)) := by
  induction n with
  | zero => simp
  | succ m ih =>
    rw [List.range_succ, List.flatMap_append]
    rw [List.Sorted, List.pairwise_append]
    refine ⟨ih, ?_, ?_⟩
    · simp only [List.flatMap_cons, List.flatMap_nil, List.append_nil]
      exact List.pairwise_replicate.mpr (Or.inr le_rfl)
    · intro a ha b hb
      rw [List.mem_flatMap] at ha
      obtain ⟨e1, he1, ha⟩ := ha
      simp only [List.flatMap_cons, List.flatMap_nil, List.append_nil] at hb
      rw [List.mem_replicate] at ha hb
      rw [List.mem_range] at he1
      omega

theorem sorted_lt_flatMap_replicate (n : Nat) (g : Nat → Nat) (hg : ∀ e1, g e1 ≤ 1) :
    List.Sorted (· < ·)
      ((List.range n).flatMap (fun e1 => List.replicate (g e1) e1)) := by
  induction n with
  | zero => simp
  | succ m ih =>
    rw [List.range_succ, List.flatMap_append]
    rw [List.Sorted, List.pairwise_append]
    refine ⟨ih, ?_, ?_⟩
    · simp only [List.flatMap_cons, List.flatMap_nil, List.append_nil]
      exact List.pairwise_replicate.mpr (Or.inl (hg m))
    · intro a ha b hb
      rw [List.mem_flatMap] at ha
      obtain ⟨e1, he1, ha⟩ := ha
      simp only [List.flatMap_cons, List.flatMap_nil, List.append_nil] at hb
      rw [List.mem_replicate] at ha hb
      rw [List.mem_range] at he1
      omega

/-- The interval cell type. -/
def intervalShape : CellShape where
  num_entities := fun d => if d = 0 then 2 else if d = 1 then 1 else 0
  num_vertices := fun d => if d = 0 then 1 else if d = 1 then 2 else 0
  local_entities := fun d =>
    if d = 0 then [[0], [1]] else if d = 1 then [[0, 1]] else []

/-- Counterexample to C6 as stated: on the degenerate one-cell interval mesh
whose cell lists vertex 0 twice, the transpose `(0, 1)` of the cell-vertex
incidence `[[0, 0]]` puts the cell index 0 twice into the row of vertex 0, so
the row `[0, 0]` is not strictly ascending (it is only non-decreasing). -/
theorem transpose_row_not_strictly_ascending_counterexample :
    (compute_from_transpose (initState 1 1 [[0, 0]]) 0 1).val? = some () ∧
    ((compute_from_transpose (initState 1 1 [[0, 0]]) 0 1).state?.map
        (fun s => (s.conn 0 1).getD 0 [])) = some [0, 0] ∧
    connOf (compute_connectivity intervalShape 1 8 (initState 1 1 [[0, 0]]) 0 1) 0 1 =
      some [[0, 0]] ∧
    ¬ List.Sorted (· < ·) ([0, 0] : List Nat) := by
  refine ⟨by decide, by decide, by decide, by decide⟩

/-- C6 amended.  Within each row of an incidence produced by
compute_from_transpose the neighbour indices appear in non-decreasing order,
and in strictly ascending order provided the rows of the transposed source
incidence `(d1, d0)` contain no duplicate entries (which is the case for every
engine-computed source, though not for a degenerate user-supplied cell-vertex
incidence). -/
theorem transpose_rows_ascending
    (s s' : MState) (d0 d1 : Nat)
    (hok : compute_from_transpose s d0 d1 = .ok () s') :
    ∀ e0, List.Sorted (· ≤ ·) ((s'.conn d0 d1).getD e0 []) ∧
      ((∀ row ∈ s.conn d1 d0, row.Nodup) →
        List.Sorted (· < ·) ((s'.conn d0 d1).getD e0 [])) := by
  unfold compute_from_transpose at hok
  split at hok
  · exact absurd hok (by simp)
  · rw [TCResult.ok.injEq] at hok
    intro e0
    rw [← hok.2, setConn_conn_self, transposeRows_getD]
    constructor
    · split
      · exact sorted_le_flatMap_replicate _ _
      · exact List.sorted_nil
    · intro hnd
      split
      · refine sorted_lt_flatMap_replicate _ _ (fun e1 => ?_)
        by_cases he1 : e1 < (s.conn d1 d0).length
        · have hmem : (s.conn d1 d0).getD e1 [] ∈ s.conn d1 d0 := by
            rw [List.getD_eq_getElem?_getD, List.getElem?_eq_getElem he1]
            exact List.getElem_mem he1
          exact List.nodup_iff_count_le_one.mp (hnd _ hmem) e0
        · rw [List.getD_eq_getElem?_getD, List.getElem?_eq_none (by omega)]
          simp
      · exact List.sorted_nil

/-- Witness for C6 (amended) on a one-edge interval mesh. -/
theorem transpose_rows_ascending_witness :
    (∀ row ∈ (initState 1 2 [[0, 1]]).conn 1 0, row.Nodup) ∧
    ∀ e0, List.Sorted (· ≤ ·)
        ((((compute_from_transpose (initState 1 2 [[0, 1]]) 0 1).state?.getD
          (initState 1 2 [[0, 1]])).conn 0 1).getD e0 []) ∧
      ((∀ row ∈ (initState 1 2 [[0, 1]]).conn 1 0, row.Nodup) →
        List.Sorted (· < ·)
          ((((compute_from_transpose (initState 1 2 [[0, 1]]) 0 1).state?.getD
            (initState 1 2 [[0, 1]])).conn 0 1).getD e0 [])) :=
  ⟨by decide, transpose_rows_ascending (initState 1 2 [[0, 1]]) _ 0 1 rfl⟩

/-! C5: membership in the rows produced by compute_from_intersection. -/

theorem mem_foldl_dedupStep (keep : Nat → Bool) (l acc : List Nat) (x : Nat) :
    x ∈ l.foldl (dedupStep keep) acc ↔ x ∈ acc ∨ (x ∈ l ∧ keep x = true) := by
  induction l generalizing acc with
  | nil => simp
  | cons e xs ih =>
    rw [List.foldl_cons, ih]
    unfold dedupStep
    split
    · rename_i h
      simp only [List.mem_append, List.mem_cons, List.not_mem_nil, or_false]
      constructor
      · rintro ((h1 | rfl) | ⟨h2, h3⟩)
        · exact Or.inl h1
        · exact Or.inr ⟨Or.inl rfl, h.1⟩
        · exact Or.inr ⟨Or.inr h2, h3⟩
      · rintro (h1 | ⟨rfl | h2, h3⟩)
        · exact Or.inl (Or.inl h1)
        · exact Or.inl (Or.inr rfl)
        · exact Or.inr ⟨h2, h3⟩
    · rename_i h
      simp only [List.mem_cons]
      constructor
      · rintro (h1 | ⟨h2, h3⟩)
        · exact Or.inl h1
        · exact Or.inr ⟨Or.inr h2, h3⟩
      · rintro (h1 | ⟨rfl | h2, h3⟩)
        · exact Or.inl h1
        · exact Or.inl (Decidable.not_not.mp (fun hne => h ⟨h3, hne⟩))
        · exact Or.inr ⟨h2, h3⟩

theorem nodup_foldl_dedupStep (keep : Nat → Bool) (l acc : List Nat) (h : acc.Nodup) :
    (l.foldl (dedupStep keep) acc).Nodup := by
  induction l generalizing acc with
  | nil => exact h
  | cons e xs ih =>
    rw [List.foldl_cons]
    refine ih _ ?_
    unfold dedupStep
    split
    · rename_i hc
      rw [List.nodup_append]
      exact ⟨h, List.nodup_singleton e, fun a ha hb => hc.2 ((List.mem_singleton.mp hb) ▸ ha)⟩
    · exact h

theorem foldl_foldl_flatMap (f : List Nat → Nat → List Nat) (g : Nat → List Nat)
    (l : List Nat) (acc : List Nat) :
    l.foldl (fun a e => (g e).foldl f a) acc = (l.flatMap g).foldl f acc := by
  induction l generalizing acc with
  | nil => rfl
  | cons e xs ih => rw [List.foldl_cons, List.flatMap_cons, List.foldl_append, ih]

theorem intersectRow_eq_foldl (keep : Nat → Bool) (rowA : List Nat) (rowsB : List (List Nat)) :
    intersectRow keep rowA rowsB =
      (rowA.flatMap (fun e => rowsB.getD e [])).foldl (dedupStep keep) [] := by
  unfold intersectRow
  exact foldl_foldl_flatMap _ _ _ _

theorem mem_intersectRow (keep : Nat → Bool) (rowA : List Nat) (rowsB : List (List Nat))
    (x : Nat) :
    x ∈ intersectRow keep rowA rowsB ↔
      (∃ e ∈ rowA, x ∈ rowsB.getD e []) ∧ keep x = true := by
  rw [intersectRow_eq_foldl, mem_foldl_dedupStep]
  simp [List.mem_flatMap]

theorem nodup_intersectRow (keep : Nat → Bool) (rowA : List Nat) (rowsB : List (List Nat)) :
    (intersectRow keep rowA rowsB).Nodup := by
  rw [intersectRow_eq_foldl]
  exact nodup_foldl_dedupStep _ _ _ List.nodup_nil

theorem containsB_iff (v0 v1 : List Nat) :
    containsB v0 v1 = true ↔ ∀ v ∈ v1, v ∈ v0 := by
  simp [containsB, List.all_eq_true]

theorem getD_map_range (f : Nat → List Nat) (n i : Nat) :
    ((List.range n).map f).getD i [] = if i < n then f i else [] := by
  rw [List.getD_eq_getElem?_getD, List.getElem?_map]
  by_cases h : i < n
  · rw [List.getElem?_range h, if_pos h]; rfl
  · rw [List.getElem?_eq_none (by simpa using Nat.le_of_not_lt h), if_neg h]; rfl

/-- C5.  In the incidence built by compute_from_intersection(d0, d1, d), the
row of every source entity `e0` is duplicate-free; when `d0 = d1` it contains
a candidate `e1` exactly when `e1` is reachable through the composition and
`e1` is not `e0` itself (in particular the row never contains its source);
when `d0 > d1` it contains `e1` exactly when `e1` is reachable through the
composition and every vertex of `e1` appears among the vertices of `e0`. -/
theorem intersection_row_characterization
    (s s' : MState) (d0 d1 d : Nat)
    (hok : compute_from_intersection s d0 d1 d = .ok () s') :
    ∀ e0, e0 < s.sizes d0 →
      ((s'.conn d0 d1).getD e0 []).Nodup ∧
      (d0 = d1 →
        (∀ e1, e1 ∈ (s'.conn d0 d1).getD e0 [] ↔
          ((∃ e ∈ (s.conn d0 d).getD e0 [], e1 ∈ (s.conn d d1).getD e []) ∧ e1 ≠ e0)) ∧
        e0 ∉ (s'.conn d0 d1).getD e0 []) ∧
      (d1 < d0 →
        ∀ e1, e1 ∈ (s'.conn d0 d1).getD e0 [] ↔
          ((∃ e ∈ (s.conn d0 d).getD e0 [], e1 ∈ (s.conn d d1).getD e []) ∧
            ∀ v ∈ (s.conn d1 0).getD e1 [], v ∈ (s.conn d0 0).getD e0 [])) := by
  unfold compute_from_intersection at hok
  split at hok
  · exact absurd hok (by simp)
  split at hok
  · exact absurd hok (by simp)
  split at hok
  · exact absurd hok (by simp)
  rw [TCResult.ok.injEq] at hok
  intro e0 he0
  have hrow : (s'.conn d0 d1).getD e0 [] =
      intersectRow (keepTest s d0 d1 e0) ((s.conn d0 d).getD e0 []) (s.conn d d1) := by
    rw [← hok.2, setConn_conn_self, getD_map_range, if_pos he0]
  refine ⟨hrow ▸ nodup_intersectRow _ _ _, fun heq => ?_, fun hlt => ?_⟩
  · have hmem : ∀ e1, e1 ∈ (s'.conn d0 d1).getD e0 [] ↔
        ((∃ e ∈ (s.conn d0 d).getD e0 [], e1 ∈ (s.conn d d1).getD e []) ∧ e1 ≠ e0) := by
      intro e1
      rw [hrow, mem_intersectRow]
      unfold keepTest
      rw [if_pos heq]
      simp
    exact ⟨hmem, fun hc => ((hmem e0).mp hc).2 rfl⟩
  · intro e1
    rw [hrow, mem_intersectRow]
    unfold keepTest
    rw [if_neg (Nat.ne_of_gt hlt)]
    rw [containsB_iff]

/-- Witness state for C5: two edges on three vertices with their vertex and
vertex-edge incidences present. -/
def intersectionWitnessState : MState where
  sizes := fun d => if d = 0 then 3 else if d = 1 then 2 else 0
  conn := fun a b =>
    if a = 1 ∧ b = 0 then [[0, 1], [1, 2]]
    else if a = 0 ∧ b = 1 then [[0], [0, 1], [1]] else []

/-- Witness for C5 with `d0 = d1 = 1`, `d = 0`, `e0 = 0` on the two-edge
state. -/
theorem intersection_row_characterization_witness :
    (0 : Nat) < intersectionWitnessState.sizes 1 ∧
    (((((compute_from_intersection intersectionWitnessState 1 1 0).state?.getD
          intersectionWitnessState).conn 1 1).getD 0 []).Nodup ∧
      ((1 : Nat) = 1 →
        (∀ e1, e1 ∈ (((compute_from_intersection intersectionWitnessState 1 1 0).state?.getD
            intersectionWitnessState).conn 1 1).getD 0 [] ↔
          ((∃ e ∈ (intersectionWitnessState.conn 1 0).getD 0 [],
              e1 ∈ (intersectionWitnessState.conn 0 1).getD e []) ∧ e1 ≠ 0)) ∧
        0 ∉ (((compute_from_intersection intersectionWitnessState 1 1 0).state?.getD
            intersectionWitnessState).conn 1 1).getD 0 []) ∧
      ((1 : Nat) < 1 →
        ∀ e1, e1 ∈ (((compute_from_intersection intersectionWitnessState 1 1 0).state?.getD
            intersectionWitnessState).conn 1 1).getD 0 [] ↔
          ((∃ e ∈ (intersectionWitnessState.conn 1 0).getD 0 [],
              e1 ∈ (intersectionWitnessState.conn 0 1).getD e []) ∧
            ∀ v ∈ (intersectionWitnessState.conn 1 0).getD e1 [],
              v ∈ (intersectionWitnessState.conn 1 0).getD 0 []))) :=
  ⟨by decide,
   intersection_row_characterization intersectionWitnessState _ 1 1 0 rfl 0 (by decide)⟩

/-! C10 and C1: what compute_entities stores in the entity-vertex rows. -/

theorem entitiesOfCells_succ (ct : CellShape) (dim n : Nat) (cv adj : List (List Nat)) :
    entitiesOfCells ct dim (n+1) cv adj =
      processCell (entitiesOfCells ct dim n cv adj) n (adj.getD n [])
        (createEntities ct dim (cv.getD n [])) := by
  unfold entitiesOfCells
  rw [List.range_succ, List.foldl_append, List.foldl_cons, List.foldl_nil]

theorem connEv_slotStep_fold (prev : List (List (Nat × List Nat))) (c : Nat)
    (adjRow : List Nat) (tuples : List (List Nat)) (st : CellAcc) :
    ∀ row ∈ (tuples.foldl (slotStep prev c adjRow) st).connEv,
      row ∈ st.connEv ∨ ∃ tup ∈ tuples, row = sortKey tup := by
  induction tuples generalizing st with
  | nil => exact fun row h => Or.inl h
  | cons t ts ih =>
    intro row h
    rw [List.foldl_cons] at h
    rcases ih _ row h with h1 | ⟨tup, ht, he⟩
    · cases hfind : findEntityIn prev c adjRow (sortKey t)
      · rw [slotStep, hfind] at h1
        simp only [List.mem_append, List.mem_singleton] at h1
        rcases h1 with h1 | rfl
        · exact Or.inl h1
        · exact Or.inr ⟨t, List.mem_cons_self _ _, rfl⟩
      · rw [slotStep, hfind] at h1
        exact Or.inl h1
    · exact Or.inr ⟨tup, List.mem_cons_of_mem _ ht, he⟩

theorem connEv_entitiesOfCells (ct : CellShape) (dim n : Nat) (cv adj : List (List Nat)) :
    ∀ row ∈ (entitiesOfCells ct dim n cv adj).connEv,
      ∃ c tup, tup ∈ createEntities ct dim (cv.getD c []) ∧ row = sortKey tup := by
  induction n with
  | zero => intro row h; exact absurd h (List.not_mem_nil _)
  | succ m ih =>
    intro row h
    rw [entitiesOfCells_succ, processCell] at h
    rcases connEv_slotStep_fold _ _ _ _ _ row h with h1 | ⟨tup, ht, he⟩
    · exact ih row h1
    · exact ⟨m, tup, ht, he⟩

theorem sortKey_sorted (t : List Nat) : List.Sorted (· ≤ ·) (sortKey t) :=
  List.sorted_insertionSort _ t

theorem sortKey_perm (t : List Nat) : (sortKey t).Perm t :=
  List.perm_insertionSort _ t

/-- Destructuring of a successful generation pass of compute_entities with no
prior entities: the checks pass and the inner `(D, D)` computation succeeded in
some state `s1` from which the new stores are built. -/
theorem compute_entities_ok_cases
    (ct : CellShape) (D fuel : Nat) (s s' : MState) (dim n : Nat)
    (hsz : s.sizes dim = 0)
    (hok : compute_entities ct D fuel s dim = .ok n s') :
    ∃ fuel' s1 a, fuel = fuel' + 1 ∧ run ct D fuel' s (.conn D D) = .ok a s1 ∧
      n = (entitiesOfCells ct dim (s1.sizes D) (s1.conn D 0) (s1.conn D D)).connEv.length ∧
      s' = setConn (setConn (setSize s1 dim n) D dim
          (entitiesOfCells ct dim (s1.sizes D) (s1.conn D 0) (s1.conn D D)).connCe) dim 0
          (entitiesOfCells ct dim (s1.sizes D) (s1.conn D 0) (s1.conn D D)).connEv := by
  cases fuel with
  | zero => exact absurd hok (by simp [compute_entities, run])
  | succ fuel' =>
    rw [compute_entities, run_ents_succ, if_neg (by omega)] at hok
    split at hok
    · exact absurd hok (by simp)
    · cases hDD : run ct D fuel' s (.conn D D) with
      | ok a s1 =>
        rw [hDD] at hok
        simp only [tbind] at hok
        rw [TCResult.ok.injEq] at hok
        exact ⟨fuel', s1, a, rfl, hDD, hok.1.symm, by rw [← hok.1, ← hok.2]⟩
      | fatal m s1 => rw [hDD] at hok; exact absurd hok (by simp [tbind])
      | outOfFuel => rw [hDD] at hok; exact absurd hok (by simp [tbind])

/-- C10.  Every row of the entity-vertex incidence `(dim, 0)` produced by a
generation pass of compute_entities is sorted in ascending order: each
candidate tuple is sorted in place before the duplicate lookup and that same
sorted tuple is what is appended to the stored connectivity. -/
theorem entity_vertex_rows_sorted
    (ct : CellShape) (D fuel : Nat) (s s' : MState) (dim n : Nat)
    (hsz : s.sizes dim = 0)
    (hok : compute_entities ct D fuel s dim = .ok n s') :
    ∀ row ∈ s'.conn dim 0, List.Sorted (· ≤ ·) row := by
  obtain ⟨fuel', s1, a, -, -, -, hs'⟩ := compute_entities_ok_cases ct D fuel s s' dim n hsz hok
  intro row h
  rw [hs', setConn_conn_self] at h
  obtain ⟨c, tup, -, he⟩ := connEv_entitiesOfCells _ _ _ _ _ row h
  exact he ▸ sortKey_sorted tup

/-- Witness for C10 on the fresh single-triangle mesh. -/
theorem entity_vertex_rows_sorted_witness :
    (initState 2 3 [[0, 1, 2]]).sizes 1 = 0 ∧
    ∀ row ∈ ((compute_entities triShape 2 12 (initState 2 3 [[0, 1, 2]]) 1).state?.getD
        (initState 2 3 [[0, 1, 2]])).conn 1 0, List.Sorted (· ≤ ·) row :=
  ⟨by decide,
   entity_vertex_rows_sorted triShape 2 12 (initState 2 3 [[0, 1, 2]]) _ 1 3 (by decide) rfl⟩

/-- Counterexample to C1 as stated: on the one-triangle mesh whose cell lists
its vertices as `[0, 2, 1]`, the first entity of dimension 1 is discovered at
slot 0 of cell 0; the canonical tuple of that slot (the cell-shape oracle
applied to the cell's vertices) is `[2, 1]`, but the stored row of
`Conn[1][0]` is the sorted tuple `[1, 2]`, not the canonical one. -/
theorem stored_entity_row_not_canonical_counterexample :
    (compute_entities triShape 2 12 (initState 2 3 [[0, 2, 1]]) 1).val? = some 3 ∧
    connOf (compute_entities triShape 2 12 (initState 2 3 [[0, 2, 1]]) 1) 1 0 =
      some [[1, 2], [0, 1], [0, 2]] ∧
    createEntities triShape 1 [0, 2, 1] = [[2, 1], [0, 1], [0, 2]] ∧
    ([[1, 2], [0, 1], [0, 2]] : List (List Nat)).getD 0 [] ≠
      ([[2, 1], [0, 1], [0, 2]] : List (List Nat)).getD 0 [] := by
  refine ⟨by decide, by decide, by decide, by decide⟩

/-! State-evolution invariants of the engine, proved by fuel induction. -/

theorem state?_tbind_cases (x : TCResult α) (f : α → MState → TCResult β) (s' : MState)
    (h : (tbind x f).state? = some s') :
    (∃ m, x = .fatal m s') ∨ (∃ a s1, x = .ok a s1 ∧ (f a s1).state? = some s') := by
  cases x with
  | ok a s1 => exact Or.inr ⟨a, s1, rfl, h⟩
  | fatal m s1 =>
    simp only [tbind, TCResult.state?, Option.some.injEq] at h
    exact Or.inl ⟨m, by rw [h]⟩
  | outOfFuel => exact absurd h (by simp [tbind, TCResult.state?])

theorem tbind_eq_ok (x : TCResult α) (f : α → MState → TCResult β) (b : β) (s' : MState)
    (h : tbind x f = .ok b s') : ∃ a s1, x = .ok a s1 ∧ f a s1 = .ok b s' := by
  cases x with
  | ok a s1 => exact ⟨a, s1, rfl, h⟩
  | fatal m s1 => exact absurd h (by simp [tbind])
  | outOfFuel => exact absurd h (by simp [tbind])

/-- Evolution invariant relating a state to the state after any engine
computation: a positive entity count stays positive; the cell count `N_D`
never changes; a count that becomes positive requires a non-empty oracle
table for its dimension and a positive cell count; and a store of a
dimension whose final count is zero cannot have appeared. -/
def EngineInv (ct : CellShape) (D : Nat) (s s' : MState) : Prop :=
  (∀ d, 0 < s.sizes d → 0 < s'.sizes d) ∧
  (s'.sizes D = s.sizes D) ∧
  (∀ d, 0 < s'.sizes d → 0 < s.sizes d ∨ (ct.local_entities d ≠ [] ∧ 0 < s.sizes D)) ∧
  (∀ a b, s'.sizes a = 0 → (s.conn a b).length = 0 → (s'.conn a b).length = 0)

theorem EngineInv.refl (ct : CellShape) (D : Nat) (s : MState) : EngineInv ct D s s :=
  ⟨fun _ h => h, rfl, fun _ h => Or.inl h, fun _ _ _ h => h⟩

theorem EngineInv.comp {ct : CellShape} {D : Nat} {s s1 s2 : MState}
    (h1 : EngineInv ct D s s1) (h2 : EngineInv ct D s1 s2) : EngineInv ct D s s2 := by
  refine ⟨fun d h => h2.1 d (h1.1 d h), h2.2.1.trans h1.2.1, fun d h => ?_, fun a b ha hc => ?_⟩
  · rcases h2.2.2.1 d h with h | ⟨ht, hp⟩
    · exact h1.2.2.1 d h
    · exact Or.inr ⟨ht, h1.2.1 ▸ hp⟩
  · have hmid : s1.sizes a = 0 := by
      by_contra hne
      exact absurd (h2.1 a (Nat.pos_of_ne_zero hne)) (by omega)
    exact h2.2.2.2 a b ha (h1.2.2.2 a b hmid hc)

theorem engineInv_of_transpose (ct : CellShape) (D : Nat) (s s' : MState) (d0 d1 : Nat)
    (h : (compute_from_transpose s d0 d1).state? = some s') : EngineInv ct D s s' := by
  unfold compute_from_transpose at h
  split at h
  · simp only [TCResult.state?, Option.some.injEq] at h
    exact h ▸ EngineInv.refl ct D s
  · simp only [TCResult.state?, Option.some.injEq] at h
    subst h
    refine ⟨fun d h => h, rfl, fun d h => Or.inl h, fun a b ha hc => ?_⟩
    by_cases hab : a = d0 ∧ b = d1
    · obtain ⟨rfl, rfl⟩ := hab
      rw [setConn_conn_self, transposeRows_length]
      exact ha
    · rw [setConn_conn_ne _ _ _ _ _ _ hab]
      exact hc

theorem engineInv_of_intersection (ct : CellShape) (D : Nat) (s s' : MState) (d0 d1 d : Nat)
    (h : (compute_from_intersection s d0 d1 d).state? = some s') : EngineInv ct D s s' := by
  unfold compute_from_intersection at h
  split at h
  · simp only [TCResult.state?, Option.some.injEq] at h
    exact h ▸ EngineInv.refl ct D s
  split at h
  · simp only [TCResult.state?, Option.some.injEq] at h
    exact h ▸ EngineInv.refl ct D s
  split at h
  · simp only [TCResult.state?, Option.some.injEq] at h
    exact h ▸ EngineInv.refl ct D s
  · simp only [TCResult.state?, Option.some.injEq] at h
    subst h
    refine ⟨fun d h => h, rfl, fun d h => Or.inl h, fun a b ha hc => ?_⟩
    by_cases hab : a = d0 ∧ b = d1
    · obtain ⟨rfl, rfl⟩ := hab
      rw [setConn_conn_self, List.length_map, List.length_range]
      exact ha
    · rw [setConn_conn_ne _ _ _ _ _ _ hab]
      exact hc

theorem connEv_length_slotStep_le (prev : List (List (Nat × List Nat))) (c : Nat)
    (adjRow : List Nat) (st : CellAcc) (t : List Nat) :
    st.connEv.length ≤ (slotStep prev c adjRow st t).connEv.length := by
  cases hf : findEntityIn prev c adjRow (sortKey t) <;> simp [slotStep, hf]

theorem connEv_length_slotFold_le (prev : List (List (Nat × List Nat))) (c : Nat)
    (adjRow : List Nat) (tuples : List (List Nat)) (st : CellAcc) :
    st.connEv.length ≤ (tuples.foldl (slotStep prev c adjRow) st).connEv.length := by
  induction tuples generalizing st with
  | nil => exact Nat.le_refl _
  | cons t ts ih =>
    rw [List.foldl_cons]
    exact (connEv_length_slotStep_le prev c adjRow st t).trans (ih _)

theorem connEv_length_processCell_le (acc : EntAcc) (c : Nat) (adjRow : List Nat)
    (tuples : List (List Nat)) :
    acc.connEv.length ≤ (processCell acc c adjRow tuples).connEv.length :=
  connEv_length_slotFold_le acc.ceList c adjRow tuples ⟨[], [], acc.connEv, acc.counter⟩

theorem findEntityIn_cell_zero (prev : List (List (Nat × List Nat))) (adjRow : List Nat)
    (key : List Nat) : findEntityIn prev 0 adjRow key = none := by
  unfold findEntityIn
  rw [List.findSome?_eq_none_iff]
  intro c0 _
  rw [if_neg (Nat.not_lt_zero c0)]

theorem entitiesOfCells_connEv_pos (ct : CellShape) (dim n : Nat) (cv adj : List (List Nat))
    (hn : 0 < n) (ht : ct.local_entities dim ≠ []) :
    0 < (entitiesOfCells ct dim n cv adj).connEv.length := by
  induction n with
  | zero => exact absurd hn (by omega)
  | succ m ih =>
    rw [entitiesOfCells_succ]
    rcases Nat.eq_zero_or_pos m with rfl | hm
    · have htup : createEntities ct dim (cv.getD 0 []) ≠ [] := by
        unfold createEntities
        exact fun hmap => ht (List.map_eq_nil_iff.mp hmap)
      obtain ⟨t, ts, hts⟩ := List.exists_cons_of_ne_nil htup
      unfold processCell
      rw [hts, List.foldl_cons, slotStep, findEntityIn_cell_zero]
      refine Nat.lt_of_lt_of_le ?_ (connEv_length_slotFold_le _ _ _ _ _)
      simp [entitiesOfCells]
    · exact Nat.lt_of_lt_of_le (ih hm) (connEv_length_processCell_le _ _ _ _)

theorem entitiesOfCells_zero_cells (ct : CellShape) (dim : Nat) (cv adj : List (List Nat)) :
    entitiesOfCells ct dim 0 cv adj = ⟨[], [], [], 0⟩ := rfl

theorem connCe_length_entitiesOfCells (ct : CellShape) (dim n : Nat)
    (cv adj : List (List Nat)) :
    (entitiesOfCells ct dim n cv adj).connCe.length = n := by
  induction n with
  | zero => rfl
  | succ m ih =>
    rw [entitiesOfCells_succ]
    unfold processCell
    simp [ih]

theorem entitiesOfCells_table_ne_nil (ct : CellShape) (dim n : Nat) (cv adj : List (List Nat))
    (h : 0 < (entitiesOfCells ct dim n cv adj).connEv.length) :
    ct.local_entities dim ≠ [] ∧ 0 < n := by
  constructor
  · obtain ⟨row, hrow⟩ := List.exists_mem_of_length_pos h
    obtain ⟨c, tup, htup, -⟩ := connEv_entitiesOfCells ct dim n cv adj row hrow
    intro hnil
    rw [createEntities, hnil] at htup
    exact absurd htup (List.not_mem_nil _)
  · rcases Nat.eq_zero_or_pos n with rfl | hn
    · rw [entitiesOfCells_zero_cells] at h
      exact absurd h (by simp)
    · exact hn

/-- The master evolution lemma: every engine computation (on any fuel, any
request) relates its entry state to the state it carries out (also on a fatal
abort) by `EngineInv`. -/
theorem run_engineInv (ct : CellShape) (D : Nat) :
    ∀ fuel req s s', (run ct D fuel s req).state? = some s' → EngineInv ct D s s' := by
  intro fuel
  induction fuel with
  | zero =>
    intro req s s' h
    exact absurd h (by cases req <;> simp [run, TCResult.state?])
  | succ fuel ih =>
    intro req s s' h
    cases req with
    | ents dim =>
      rw [run_ents_succ] at h
      split at h
      case isTrue hsz =>
        split at h <;>
          (simp only [TCResult.state?, Option.some.injEq] at h; exact h ▸ EngineInv.refl ct D s)
      case isFalse hsz =>
        split at h
        · simp only [TCResult.state?, Option.some.injEq] at h
          exact h ▸ EngineInv.refl ct D s
        · rcases state?_tbind_cases _ _ _ h with ⟨m, hx⟩ | ⟨a, s1, hx, hf⟩
          · exact ih _ _ _ (by rw [hx]; rfl)
          · have h1 : EngineInv ct D s s1 := ih _ _ _ (by rw [hx]; rfl)
            simp only [TCResult.state?, Option.some.injEq] at hf
            have hsz0 : s.sizes dim = 0 := by omega
            subst hf
            refine ⟨fun d hd => ?_, ?_, fun d hd => ?_, fun a b ha hc => ?_⟩
            · by_cases hdim : d = dim
              · exact absurd (hdim ▸ hd) hsz
              · rw [setConn_sizes, setConn_sizes, setSize_sizes_ne _ _ _ _ hdim]
                exact h1.1 d hd
            · rw [setConn_sizes, setConn_sizes]
              by_cases hdim : dim = D
              · rw [hdim, setSize_sizes_self, ← hdim]
                have hz : s1.sizes dim = 0 := by
                  rw [hdim]
                  exact h1.2.1.trans (hdim ▸ hsz0)
                rw [hz, entitiesOfCells_zero_cells]
                exact hsz0.symm
              · rw [setSize_sizes_ne _ _ _ _ (Ne.symm hdim)]
                exact h1.2.1
            · rw [setConn_sizes, setConn_sizes] at hd
              by_cases hdim : d = dim
              · subst hdim
                rw [setSize_sizes_self] at hd
                obtain ⟨ht, hn⟩ := entitiesOfCells_table_ne_nil _ _ _ _ _ hd
                exact Or.inr ⟨ht, by rw [← h1.2.1]; exact hn⟩
              · rw [setSize_sizes_ne _ _ _ _ hdim] at hd
                rcases h1.2.2.1 d hd with hp | ⟨ht, hp⟩
                · exact Or.inl hp
                · exact Or.inr ⟨ht, hp⟩
            · rw [setConn_sizes, setConn_sizes] at ha
              by_cases hd0 : a = dim ∧ b = 0
              · obtain ⟨rfl, rfl⟩ := hd0
                rw [setConn_conn_self]
                rw [setSize_sizes_self] at ha
                exact ha
              · rw [setConn_conn_ne _ _ _ _ _ _ hd0]
                have hsa1 : s1.sizes a = 0 := by
                  by_cases hdim : a = dim
                  · subst hdim
                    rw [setSize_sizes_self] at ha
                    by_contra hne
                    rcases h1.2.2.1 a (Nat.pos_of_ne_zero hne) with hp | ⟨ht, hp⟩
                    · exact absurd hp (by omega)
                    · have := entitiesOfCells_connEv_pos ct a (s1.sizes D)
                        (s1.conn D 0) (s1.conn D D) (by rw [h1.2.1]; exact hp) ht
                      omega
                  · rw [setSize_sizes_ne _ _ _ _ hdim] at ha
                    exact ha
                by_cases hDd : a = D ∧ b = dim
                · obtain ⟨rfl, rfl⟩ := hDd
                  rw [setConn_conn_self, connCe_length_entitiesOfCells]
                  exact hsa1
                · rw [setConn_conn_ne _ _ _ _ _ _ hDd, setSize_conn]
                  exact h1.2.2.2 a b hsa1 hc
    | conn d0 d1 =>
      rw [run_conn_succ] at h
      split at h
      · simp only [TCResult.state?, Option.some.injEq] at h
        exact h ▸ EngineInv.refl ct D s
      · rcases state?_tbind_cases _ _ _ h with ⟨m, hx⟩ | ⟨a1, sa, hx, h⟩
        · split at hx
          · exact ih _ _ _ (by rw [hx]; rfl)
          · exact absurd hx (by simp)
        · have hPa : EngineInv ct D s sa := by
            split at hx
            · exact ih _ _ _ (by rw [hx]; rfl)
            · rw [TCResult.ok.injEq] at hx
              exact hx.2 ▸ EngineInv.refl ct D s
          rcases state?_tbind_cases _ _ _ h with ⟨m, hx2⟩ | ⟨a2, sb, hx2, h⟩
          · refine hPa.comp ?_
            split at hx2
            · exact ih _ _ _ (by rw [hx2]; rfl)
            · exact absurd hx2 (by simp)
          · have hPb : EngineInv ct D s sb := by
              refine hPa.comp ?_
              split at hx2
              · exact ih _ _ _ (by rw [hx2]; rfl)
              · rw [TCResult.ok.injEq] at hx2
                exact hx2.2 ▸ EngineInv.refl ct D sa
            split at h
            · simp only [TCResult.state?, Option.some.injEq] at h
              exact h ▸ hPb
            split at h
            · simp only [TCResult.state?, Option.some.injEq] at h
              exact h ▸ hPb
            split at h
            · -- transpose path
              rcases state?_tbind_cases _ _ _ h with ⟨m, hx3⟩ | ⟨a3, sc, hx3, h⟩
              · exact hPb.comp (ih _ _ _ (by rw [hx3]; rfl))
              · have hPc : EngineInv ct D s sc := hPb.comp (ih _ _ _ (by rw [hx3]; rfl))
                rcases state?_tbind_cases _ _ _ h with ⟨m, hx4⟩ | ⟨a4, sd, hx4, h⟩
                · exact hPc.comp (engineInv_of_transpose ct D sc s' d0 d1 (by rw [hx4]; rfl))
                · have hPd : EngineInv ct D s sd :=
                    hPc.comp (engineInv_of_transpose ct D sc sd d0 d1 (by rw [hx4]; rfl))
                  simp only [TCResult.state?, Option.some.injEq] at h
                  exact h ▸ hPd
            split at h
            · simp only [TCResult.state?, Option.some.injEq] at h
              exact h ▸ hPb
            · -- intersection path
              rcases state?_tbind_cases _ _ _ h with ⟨m, hx3⟩ | ⟨a3, sc, hx3, h⟩
              · exact hPb.comp (ih _ _ _ (by rw [hx3]; rfl))
              · have hPc : EngineInv ct D s sc := hPb.comp (ih _ _ _ (by rw [hx3]; rfl))
                rcases state?_tbind_cases _ _ _ h with ⟨m, hx4⟩ | ⟨a4, sd, hx4, h⟩
                · exact hPc.comp (ih _ _ _ (by rw [hx4]; rfl))
                · have hPd : EngineInv ct D s sd := hPc.comp (ih _ _ _ (by rw [hx4]; rfl))
                  rcases state?_tbind_cases _ _ _ h with ⟨m, hx5⟩ | ⟨a5, se, hx5, h⟩
                  · exact hPd.comp (engineInv_of_intersection ct D sd s' d0 d1 _ (by rw [hx5]; rfl))
                  · have hPe : EngineInv ct D s se :=
                      hPd.comp (engineInv_of_intersection ct D sd se d0 d1 _ (by rw [hx5]; rfl))
                    simp only [TCResult.state?, Option.some.injEq] at h
                    exact h ▸ hPe

/-! C9: the empty-mesh early return of compute_connectivity. -/

/-- C9.  On a cache miss, if after compute_connectivity(d0, d1) has ensured
entities for both dimensions the entity counts of `d0` and `d1` are both
zero, the call returns the post-ensure state with `Conn[d0][d1]` still absent
(no store has been created); whenever at least one of the two counts is
non-zero the computation proceeds into the re-check and strategy dispatch. -/
theorem empty_counts_return_without_store
    (ct : CellShape) (D fuel : Nat) (s s1 : MState) (d0 d1 a : Nat)
    (hmiss : (s.conn d0 d1).length = 0)
    (hens : ensureEnts ct D fuel s d0 d1 = .ok a s1) :
    (s1.sizes d0 = 0 → s1.sizes d1 = 0 →
      compute_connectivity ct D (fuel+1) s d0 d1 = .ok 0 s1 ∧
      (s1.conn d0 d1).length = 0) ∧
    (¬ (s1.sizes d0 = 0 ∧ s1.sizes d1 = 0) →
      compute_connectivity ct D (fuel+1) s d0 d1 =
        (if 0 < (s1.conn d0 d1).length then .ok 0 s1
        else if d0 < d1 then
          tbind (run ct D fuel s1 (.conn d1 d0)) (fun _ sc =>
          tbind (compute_from_transpose sc d0 d1) (fun _ sd => .ok 0 sd))
        else if 0 < d0 ∧ d1 = 0 then
          .fatal "assert: these connections should already exist" s1
        else
          tbind (run ct D fuel s1 (.conn d0 (if d0 = 0 ∧ d1 = 0 then D else 0))) (fun _ sc =>
          tbind (run ct D fuel sc (.conn (if d0 = 0 ∧ d1 = 0 then D else 0) d1)) (fun _ sd =>
          tbind (compute_from_intersection sd d0 d1 (if d0 = 0 ∧ d1 = 0 then D else 0))
            (fun _ se => .ok 0 se))))) := by
  have hbase :
      compute_connectivity ct D (fuel+1) s d0 d1 =
        (if s1.sizes d0 = 0 ∧ s1.sizes d1 = 0 then .ok 0 s1
        else if 0 < (s1.conn d0 d1).length then .ok 0 s1
        else if d0 < d1 then
          tbind (run ct D fuel s1 (.conn d1 d0)) (fun _ sc =>
          tbind (compute_from_transpose sc d0 d1) (fun _ sd => .ok 0 sd))
        else if 0 < d0 ∧ d1 = 0 then
          .fatal "assert: these connections should already exist" s1
        else
          tbind (run ct D fuel s1 (.conn d0 (if d0 = 0 ∧ d1 = 0 then D else 0))) (fun _ sc =>
          tbind (run ct D fuel sc (.conn (if d0 = 0 ∧ d1 = 0 then D else 0) d1)) (fun _ sd =>
          tbind (compute_from_intersection sd d0 d1 (if d0 = 0 ∧ d1 = 0 then D else 0))
            (fun _ se => .ok 0 se)))) := by
    rw [compute_connectivity, run_conn_eq_ensure, if_neg (by omega), hens]
    rfl
  constructor
  · intro h0 h1
    obtain ⟨a1, sa, hx1, hx2⟩ := tbind_eq_ok _ _ _ _ hens
    have hInv1 : EngineInv ct D s sa := by
      split at hx1
      · exact run_engineInv ct D fuel _ _ _ (by rw [hx1]; rfl)
      · rw [TCResult.ok.injEq] at hx1
        exact hx1.2 ▸ EngineInv.refl ct D s
    have hInv2 : EngineInv ct D sa s1 := by
      split at hx2
      · exact run_engineInv ct D fuel _ _ _ (by rw [hx2]; rfl)
      · rw [TCResult.ok.injEq] at hx2
        exact hx2.2 ▸ EngineInv.refl ct D sa
    have hsa0 : sa.sizes d0 = 0 := by
      by_contra hne
      exact absurd (hInv2.1 d0 (Nat.pos_of_ne_zero hne)) (by omega)
    refine ⟨?_, hInv2.2.2.2 d0 d1 h0 (hInv1.2.2.2 d0 d1 hsa0 hmiss)⟩
    rw [hbase, if_pos ⟨h0, h1⟩]
  · intro hnb
    rw [hbase, if_neg hnb]

/-- Witness state for C9: an inconsistent but constructible state with a
present cell-cell store and no entities at all; both ensure steps run and
produce zero counts. -/
def emptyCountsWitnessState : MState where
  sizes := fun _ => 0
  conn := fun a b => if a = 2 ∧ b = 2 then [[0]] else []

/-- Witness for C9 with `(d0, d1) = (1, 0)` and six units of fuel. -/
theorem empty_counts_return_without_store_witness :
    (emptyCountsWitnessState.conn 1 0).length = 0 ∧
    compute_connectivity triShape 2 7 emptyCountsWitnessState 1 0 =
      .ok 0 ((ensureEnts triShape 2 6 emptyCountsWitnessState 1 0).state?.getD
        emptyCountsWitnessState) ∧
    ((((ensureEnts triShape 2 6 emptyCountsWitnessState 1 0).state?.getD
        emptyCountsWitnessState)).conn 1 0).length = 0 :=
  ⟨by decide,
   ((empty_counts_return_without_store triShape 2 6 emptyCountsWitnessState
        ((ensureEnts triShape 2 6 emptyCountsWitnessState 1 0).state?.getD
          emptyCountsWitnessState) 1 0 0 (by decide) rfl).1 (by decide) (by decide)).1,
   ((empty_counts_return_without_store triShape 2 6 emptyCountsWitnessState
        ((ensureEnts triShape 2 6 emptyCountsWitnessState 1 0).state?.getD
          emptyCountsWitnessState) 1 0 0 (by decide) rfl).1 (by decide) (by decide)).2⟩

/-! C4: termination of the mutual recursion, as fuel adequacy. -/

theorem transpose_conn_ne (s s' : MState) (d0 d1 a b : Nat)
    (h : (compute_from_transpose s d0 d1).state? = some s')
    (hne : ¬ (a = d0 ∧ b = d1)) : s'.conn a b = s.conn a b := by
  unfold compute_from_transpose at h
  split at h <;> simp only [TCResult.state?, Option.some.injEq] at h <;> subst h
  · rfl
  · exact setConn_conn_ne _ _ _ _ _ _ hne

theorem intersection_conn_ne (s s' : MState) (d0 d1 d a b : Nat)
    (h : (compute_from_intersection s d0 d1 d).state? = some s')
    (hne : ¬ (a = d0 ∧ b = d1)) : s'.conn a b = s.conn a b := by
  unfold compute_from_intersection at h
  split at h
  · simp only [TCResult.state?, Option.some.injEq] at h; subst h; rfl
  split at h
  · simp only [TCResult.state?, Option.some.injEq] at h; subst h; rfl
  split at h
  · simp only [TCResult.state?, Option.some.injEq] at h; subst h; rfl
  · simp only [TCResult.state?, Option.some.injEq] at h
    subst h
    exact setConn_conn_ne _ _ _ _ _ _ hne

/-- In a mesh of positive topological dimension, a present cell-vertex store
`(D, 0)` stays present through every engine computation: the only code paths
that would overwrite it abort fatally first. -/
theorem run_connD0_pos (ct : CellShape) (D : Nat) (hD : 0 < D) :
    ∀ fuel req s s', (run ct D fuel s req).state? = some s' →
      0 < (s.conn D 0).length → 0 < (s'.conn D 0).length := by
  intro fuel
  induction fuel with
  | zero =>
    intro req s s' h
    exact absurd h (by cases req <;> simp [run, TCResult.state?])
  | succ fuel ih =>
    intro req s s' h hpos
    cases req with
    | ents dim =>
      rw [run_ents_succ] at h
      split at h
      · split at h <;>
          (simp only [TCResult.state?, Option.some.injEq] at h; exact h ▸ hpos)
      · split at h
        · simp only [TCResult.state?, Option.some.injEq] at h
          exact h ▸ hpos
        · rename_i hck
          have hdim0 : dim ≠ 0 := fun h0 => hck (Or.inl (h0 ▸ hpos))
          have hdimD : dim ≠ D := fun hDd => hck (Or.inr (hDd ▸ hpos))
          rcases state?_tbind_cases _ _ _ h with ⟨m, hx⟩ | ⟨a, s1, hx, hf⟩
          · exact ih _ _ _ (by rw [hx]; rfl) hpos
          · have h1 := ih _ _ _ (by rw [hx]; rfl) hpos
            simp only [TCResult.state?, Option.some.injEq] at hf
            subst hf
            rw [setConn_conn_ne _ _ _ _ _ _ (fun hc => hdimD hc.1.symm),
              setConn_conn_ne _ _ _ _ _ _ (fun hc => hdim0 hc.2.symm), setSize_conn]
            exact h1
    | conn d0 d1 =>
      rw [run_conn_succ] at h
      split at h
      · simp only [TCResult.state?, Option.some.injEq] at h
        exact h ▸ hpos
      · rcases state?_tbind_cases _ _ _ h with ⟨m, hx⟩ | ⟨a1, sa, hx, h⟩
        · split at hx
          · exact ih _ _ _ (by rw [hx]; rfl) hpos
          · exact absurd hx (by simp)
        · have hpa : 0 < (sa.conn D 0).length := by
            split at hx
            · exact ih _ _ _ (by rw [hx]; rfl) hpos
            · rw [TCResult.ok.injEq] at hx
              exact hx.2 ▸ hpos
          rcases state?_tbind_cases _ _ _ h with ⟨m, hx2⟩ | ⟨a2, sb, hx2, h⟩
          · split at hx2
            · exact ih _ _ _ (by rw [hx2]; rfl) hpa
            · exact absurd hx2 (by simp)
          · have hpb : 0 < (sb.conn D 0).length := by
              split at hx2
              · exact ih _ _ _ (by rw [hx2]; rfl) hpa
              · rw [TCResult.ok.injEq] at hx2
                exact hx2.2 ▸ hpa
            split at h
            · simp only [TCResult.state?, Option.some.injEq] at h
              exact h ▸ hpb
            split at h
            · simp only [TCResult.state?, Option.some.injEq] at h
              exact h ▸ hpb
            split at h
            · rename_i hlt
              rcases state?_tbind_cases _ _ _ h with ⟨m, hx3⟩ | ⟨a3, sc, hx3, h⟩
              · exact ih _ _ _ (by rw [hx3]; rfl) hpb
              · have hpc : 0 < (sc.conn D 0).length := ih _ _ _ (by rw [hx3]; rfl) hpb
                have hne : ¬ (D = d0 ∧ 0 = d1) := fun hc => by omega
                rcases state?_tbind_cases _ _ _ h with ⟨m, hx4⟩ | ⟨a4, sd, hx4, h⟩
                · rw [transpose_conn_ne sc s' d0 d1 D 0 (by rw [hx4]; rfl) hne]
                  exact hpc
                · have hpd : 0 < (sd.conn D 0).length := by
                    rw [transpose_conn_ne sc sd d0 d1 D 0 (by rw [hx4]; rfl) hne]
                    exact hpc
                  simp only [TCResult.state?, Option.some.injEq] at h
                  exact h ▸ hpd
            split at h
            · simp only [TCResult.state?, Option.some.injEq] at h
              exact h ▸ hpb
            · rename_i hlt hassert
              rcases state?_tbind_cases _ _ _ h with ⟨m, hx3⟩ | ⟨a3, sc, hx3, h⟩
              · exact ih _ _ _ (by rw [hx3]; rfl) hpb
              · have hpc : 0 < (sc.conn D 0).length := ih _ _ _ (by rw [hx3]; rfl) hpb
                rcases state?_tbind_cases _ _ _ h with ⟨m, hx4⟩ | ⟨a4, sd, hx4, h⟩
                · exact ih _ _ _ (by rw [hx4]; rfl) hpc
                · have hpd : 0 < (sd.conn D 0).length := ih _ _ _ (by rw [hx4]; rfl) hpc
                  have hne : ¬ (D = d0 ∧ 0 = d1) := fun hc => hassert ⟨hc.1 ▸ hD, hc.2.symm⟩
                  rcases state?_tbind_cases _ _ _ h with ⟨m, hx5⟩ | ⟨a5, se, hx5, h⟩
                  · rw [intersection_conn_ne sd s' d0 d1 _ D 0 (by rw [hx5]; rfl) hne]
                    exact hpd
                  · have hpe : 0 < (se.conn D 0).length := by
                      rw [intersection_conn_ne sd se d0 d1 _ D 0 (by rw [hx5]; rfl) hne]
                      exact hpd
                    simp only [TCResult.state?, Option.some.injEq] at h
                    exact h ▸ hpe

/-- Well-formedness of a constructed mesh state: positive topological
dimension, known positive vertex and cell counts, and a present cell-vertex
incidence. -/
def WF (D : Nat) (s : MState) : Prop :=
  0 < D ∧ 0 < s.sizes 0 ∧ 0 < s.sizes D ∧ 0 < (s.conn D 0).length

theorem run_preserves_wf (ct : CellShape) (D fuel : Nat) (req : Req) (s s' : MState)
    (h : (run ct D fuel s req).state? = some s') (hwf : WF D s) : WF D s' := by
  have hinv := run_engineInv ct D fuel req s s' h
  exact ⟨hwf.1, hinv.1 0 hwf.2.1, hinv.1 D hwf.2.2.1,
    run_connD0_pos ct D hwf.1 fuel req s s' h hwf.2.2.2⟩

theorem state?_some_tbind (x : TCResult α) (g : α → MState → TCResult β)
    (hx : ∃ s1, x.state? = some s1)
    (hg : ∀ a s1, x = .ok a s1 → ∃ s2, (g a s1).state? = some s2) :
    ∃ s2, (tbind x g).state? = some s2 := by
  cases x with
  | ok a s => exact hg a s rfl
  | fatal m s => exact ⟨s, rfl⟩
  | outOfFuel => exact absurd hx (by simp [TCResult.state?])

theorem ne_outOfFuel_of_state? (r : TCResult α) (h : ∃ s', r.state? = some s') :
    r ≠ .outOfFuel := by
  intro hr
  rw [hr] at h
  exact absurd h (by simp [TCResult.state?])

theorem transpose_state?_some (s : MState) (d0 d1 : Nat) :
    ∃ s', (compute_from_transpose s d0 d1).state? = some s' := by
  unfold compute_from_transpose
  split <;> exact ⟨_, rfl⟩

theorem intersection_state?_some (s : MState) (d0 d1 d : Nat) :
    ∃ s', (compute_from_intersection s d0 d1 d).state? = some s' := by
  unfold compute_from_intersection
  split
  · exact ⟨_, rfl⟩
  split
  · exact ⟨_, rfl⟩
  split
  · exact ⟨_, rfl⟩
  · exact ⟨_, rfl⟩

theorem run_conn_D0_eq (ct : CellShape) (D fuel : Nat) (s : MState) (hwf : WF D s) :
    run ct D (fuel+1) s (.conn D 0) = .ok 0 s := by
  rw [run_conn_succ, if_pos hwf.2.2.2]

theorem run_conn_0D_some (ct : CellShape) (D fuel : Nat) (s : MState) (hwf : WF D s)
    (hf : 2 ≤ fuel) : ∃ s', (run ct D fuel s (.conn 0 D)).state? = some s' := by
  obtain ⟨hD, h0, hND, hC⟩ := hwf
  obtain ⟨f1, rfl⟩ : ∃ f1, fuel = f1 + 1 := ⟨fuel - 1, by omega⟩
  rw [run_conn_succ]
  by_cases hp : 0 < (s.conn 0 D).length
  · rw [if_pos hp]
    exact ⟨s, rfl⟩
  · rw [if_neg hp, if_neg (by omega : ¬ s.sizes 0 = 0)]
    simp only [tbind]
    rw [if_neg (by omega : ¬ s.sizes D = 0)]
    simp only [tbind]
    rw [if_neg (fun hc : _ ∧ _ => absurd hc.1 (by omega)), if_neg hp, if_pos hD]
    obtain ⟨f2, rfl⟩ : ∃ f2, f1 = f2 + 1 := ⟨f1 - 1, by omega⟩
    rw [run_conn_D0_eq ct D f2 s ⟨hD, h0, hND, hC⟩]
    simp only [tbind]
    refine state?_some_tbind _ _ (transpose_state?_some s 0 D) ?_
    intro a s1 _
    exact ⟨s1, rfl⟩

theorem run_conn_DD_some (ct : CellShape) (D fuel : Nat) (s : MState) (hwf : WF D s)
    (hf : 4 ≤ fuel) : ∃ s', (run ct D fuel s (.conn D D)).state? = some s' := by
  obtain ⟨hD, h0, hND, hC⟩ := hwf
  obtain ⟨f1, rfl⟩ : ∃ f1, fuel = f1 + 1 := ⟨fuel - 1, by omega⟩
  rw [run_conn_succ]
  by_cases hp : 0 < (s.conn D D).length
  · rw [if_pos hp]
    exact ⟨s, rfl⟩
  · rw [if_neg hp, if_neg (by omega : ¬ s.sizes D = 0)]
    simp only [tbind]
    rw [if_neg (by omega : ¬ s.sizes D = 0)]
    simp only [tbind]
    rw [if_neg (fun hc : _ ∧ _ => absurd hc.1 (by omega)), if_neg hp,
      if_neg (lt_irrefl D), if_neg (fun hc : _ ∧ _ => absurd hc.2 (by omega)),
      show (if D = 0 ∧ D = 0 then D else 0) = 0 from
        if_neg (fun hc : _ ∧ _ => absurd hc.1 (by omega))]
    obtain ⟨f2, rfl⟩ : ∃ f2, f1 = f2 + 1 := ⟨f1 - 1, by omega⟩
    rw [run_conn_D0_eq ct D f2 s ⟨hD, h0, hND, hC⟩]
    simp only [tbind]
    refine state?_some_tbind _ _
      (run_conn_0D_some ct D (f2+1) s ⟨hD, h0, hND, hC⟩ (by omega)) ?_
    intro a sc _
    refine state?_some_tbind _ _ (intersection_state?_some sc D D 0) ?_
    intro a4 se _
    exact ⟨se, rfl⟩

theorem run_ents_some (ct : CellShape) (D fuel : Nat) (s : MState) (dim : Nat)
    (hwf : WF D s) (hf : 5 ≤ fuel) :
    ∃ s', (run ct D fuel s (.ents dim)).state? = some s' := by
  obtain ⟨f1, rfl⟩ : ∃ f1, fuel = f1 + 1 := ⟨fuel - 1, by omega⟩
  rw [run_ents_succ]
  by_cases hsz : 0 < s.sizes dim
  · rw [if_pos hsz]
    split <;> exact ⟨_, rfl⟩
  · rw [if_neg hsz]
    split
    · exact ⟨_, rfl⟩
    · refine state?_some_tbind _ _ (run_conn_DD_some ct D f1 s hwf (by omega)) ?_
      intro a s1 _
      exact ⟨_, rfl⟩

theorem ensureEnts_some (ct : CellShape) (D fuel : Nat) (s : MState) (d0 d1 : Nat)
    (hwf : WF D s) (hf : 5 ≤ fuel) :
    ∃ s1, (ensureEnts ct D fuel s d0 d1).state? = some s1 := by
  unfold ensureEnts
  refine state?_some_tbind _ _ ?_ ?_
  · by_cases h : s.sizes d0 = 0
    · rw [if_pos h]
      exact run_ents_some ct D fuel s d0 hwf hf
    · rw [if_neg h]
      exact ⟨s, rfl⟩
  · intro a sa hok
    have hwfa : WF D sa := by
      split at hok
      · exact run_preserves_wf ct D fuel _ s sa (by rw [hok]; rfl) hwf
      · rw [TCResult.ok.injEq] at hok
        exact hok.2 ▸ hwf
    by_cases h : sa.sizes d1 = 0
    · rw [if_pos h]
      exact run_ents_some ct D fuel sa d1 hwfa hf
    · rw [if_neg h]
      exact ⟨sa, rfl⟩

theorem ensureEnts_ok_wf (ct : CellShape) (D fuel : Nat) (s s1 : MState) (d0 d1 a : Nat)
    (h : ensureEnts ct D fuel s d0 d1 = .ok a s1) (hwf : WF D s) : WF D s1 := by
  obtain ⟨a1, sa, hx1, hx2⟩ := tbind_eq_ok _ _ _ _ h
  have hwfa : WF D sa := by
    split at hx1
    · exact run_preserves_wf ct D fuel _ s sa (by rw [hx1]; rfl) hwf
    · rw [TCResult.ok.injEq] at hx1
      exact hx1.2 ▸ hwf
  split at hx2
  · exact run_preserves_wf ct D fuel _ sa s1 (by rw [hx2]; rfl) hwfa
  · rw [TCResult.ok.injEq] at hx2
    exact hx2.2 ▸ hwfa

theorem run_conn_x0_some (ct : CellShape) (D fuel : Nat) (s : MState) (d0 : Nat)
    (hwf : WF D s) (hf : 7 ≤ fuel) :
    ∃ s', (run ct D fuel s (.conn d0 0)).state? = some s' := by
  obtain ⟨f1, rfl⟩ : ∃ f1, fuel = f1 + 1 := ⟨fuel - 1, by omega⟩
  rw [run_conn_eq_ensure]
  by_cases hp : 0 < (s.conn d0 0).length
  · rw [if_pos hp]
    exact ⟨s, rfl⟩
  · rw [if_neg hp]
    refine state?_some_tbind _ _ (ensureEnts_some ct D f1 s d0 0 hwf (by omega)) ?_
    intro a sb hok
    obtain ⟨hD, hb0, hbD, hbC⟩ := ensureEnts_ok_wf ct D f1 s sb d0 0 a hok hwf
    rw [if_neg (fun hc : _ ∧ _ => absurd hc.2 (by omega))]
    by_cases hp2 : 0 < (sb.conn d0 0).length
    · rw [if_pos hp2]
      exact ⟨sb, rfl⟩
    · rw [if_neg hp2, if_neg (Nat.not_lt_zero d0)]
      by_cases hd0 : 0 < d0
      · rw [if_pos ⟨hd0, rfl⟩]
        exact ⟨sb, rfl⟩
      · rw [if_neg (fun hc : _ ∧ _ => hd0 hc.1)]
        have hd00 : d0 = 0 := by omega
        subst hd00
        rw [show (if (0:Nat) = 0 ∧ (0:Nat) = 0 then D else 0) = D from if_pos ⟨rfl, rfl⟩]
        refine state?_some_tbind _ _
          (run_conn_0D_some ct D f1 sb ⟨hD, hb0, hbD, hbC⟩ (by omega)) ?_
        intro a3 sc hok3
        have hwfc := run_preserves_wf ct D f1 _ sb sc (by rw [hok3]; rfl) ⟨hD, hb0, hbD, hbC⟩
        obtain ⟨f2, rfl⟩ : ∃ f2, f1 = f2 + 1 := ⟨f1 - 1, by omega⟩
        rw [run_conn_D0_eq ct D f2 sc hwfc]
        simp only [tbind]
        refine state?_some_tbind _ _ (intersection_state?_some sc 0 0 D) ?_
        intro a4 se _
        exact ⟨se, rfl⟩

theorem run_conn_0x_some (ct : CellShape) (D fuel : Nat) (s : MState) (d1 : Nat)
    (hwf : WF D s) (hd1 : 0 < d1) (hf : 8 ≤ fuel) :
    ∃ s', (run ct D fuel s (.conn 0 d1)).state? = some s' := by
  obtain ⟨f1, rfl⟩ : ∃ f1, fuel = f1 + 1 := ⟨fuel - 1, by omega⟩
  rw [run_conn_eq_ensure]
  by_cases hp : 0 < (s.conn 0 d1).length
  · rw [if_pos hp]
    exact ⟨s, rfl⟩
  · rw [if_neg hp]
    refine state?_some_tbind _ _ (ensureEnts_some ct D f1 s 0 d1 hwf (by omega)) ?_
    intro a sb hok
    have hwfb := ensureEnts_ok_wf ct D f1 s sb 0 d1 a hok hwf
    rw [if_neg (fun hc : _ ∧ _ => absurd hc.1 (by have := hwfb.2.1; omega))]
    by_cases hp2 : 0 < (sb.conn 0 d1).length
    · rw [if_pos hp2]
      exact ⟨sb, rfl⟩
    · rw [if_neg hp2, if_pos hd1]
      refine state?_some_tbind _ _ (run_conn_x0_some ct D f1 sb d1 hwfb (by omega)) ?_
      intro a3 sc _
      refine state?_some_tbind _ _ (transpose_state?_some sc 0 d1) ?_
      intro a4 sd _
      exact ⟨sd, rfl⟩

theorem run_conn_ge_some (ct : CellShape) (D fuel : Nat) (s : MState) (d0 d1 : Nat)
    (hwf : WF D s) (hle : d1 ≤ d0) (hf : 9 ≤ fuel) :
    ∃ s', (run ct D fuel s (.conn d0 d1)).state? = some s' := by
  obtain ⟨f1, rfl⟩ : ∃ f1, fuel = f1 + 1 := ⟨fuel - 1, by omega⟩
  rw [run_conn_eq_ensure]
  by_cases hp : 0 < (s.conn d0 d1).length
  · rw [if_pos hp]
    exact ⟨s, rfl⟩
  · rw [if_neg hp]
    refine state?_some_tbind _ _ (ensureEnts_some ct D f1 s d0 d1 hwf (by omega)) ?_
    intro a sb hok
    have hwfb := ensureEnts_ok_wf ct D f1 s sb d0 d1 a hok hwf
    by_cases hbz : sb.sizes d0 = 0 ∧ sb.sizes d1 = 0
    · rw [if_pos hbz]
      exact ⟨sb, rfl⟩
    · rw [if_neg hbz]
      by_cases hp2 : 0 < (sb.conn d0 d1).length
      · rw [if_pos hp2]
        exact ⟨sb, rfl⟩
      · rw [if_neg hp2, if_neg (Nat.not_lt.mpr hle)]
        by_cases ha : 0 < d0 ∧ d1 = 0
        · rw [if_pos ha]
          exact ⟨sb, rfl⟩
        · rw [if_neg ha]
          by_cases hzz : d0 = 0 ∧ d1 = 0
          · obtain ⟨rfl, rfl⟩ := hzz
            rw [show (if (0:Nat) = 0 ∧ (0:Nat) = 0 then D else 0) = D from if_pos ⟨rfl, rfl⟩]
            refine state?_some_tbind _ _
              (run_conn_0D_some ct D f1 sb hwfb (by omega)) ?_
            intro a3 sc hok3
            have hwfc := run_preserves_wf ct D f1 _ sb sc (by rw [hok3]; rfl) hwfb
            obtain ⟨f2, rfl⟩ : ∃ f2, f1 = f2 + 1 := ⟨f1 - 1, by omega⟩
            rw [run_conn_D0_eq ct D f2 sc hwfc]
            simp only [tbind]
            refine state?_some_tbind _ _ (intersection_state?_some sc 0 0 D) ?_
            intro a4 se _
            exact ⟨se, rfl⟩
          · rw [show (if d0 = 0 ∧ d1 = 0 then D else 0) = 0 from if_neg hzz]
            have hd1 : 0 < d1 := by
              rcases Nat.eq_zero_or_pos d1 with rfl | h
              · exact absurd ⟨Nat.pos_of_ne_zero (fun h0 => hzz ⟨h0, rfl⟩), rfl⟩ ha
              · exact h
            refine state?_some_tbind _ _
              (run_conn_x0_some ct D f1 sb d0 hwfb (by omega)) ?_
            intro a3 sc hok3
            have hwfc := run_preserves_wf ct D f1 _ sb sc (by rw [hok3]; rfl) hwfb
            refine state?_some_tbind _ _
              (run_conn_0x_some ct D f1 sc d1 hwfc hd1 (by omega)) ?_
            intro a4 sd _
            refine state?_some_tbind _ _ (intersection_state?_some sd d0 d1 0) ?_
            intro a5 se _
            exact ⟨se, rfl⟩

/-- C4.  For every `d0, d1 ≤ D`, the mutual recursion of compute_connectivity
(through compute_entities, compute_from_transpose and
compute_from_intersection) terminates on a well-formed mesh state: with any
fuel of at least 10 the engine never exhausts it, because every recursive
call either reduces to an already-settled request or bottoms out at the
primitive `(D, 0)` incidence and its transpose. -/
theorem connectivity_recursion_terminates
    (ct : CellShape) (D fuel : Nat) (s : MState) (d0 d1 : Nat)
    (hwf : WF D s) (hd0 : d0 ≤ D) (hd1 : d1 ≤ D) (hf : 10 ≤ fuel) :
    compute_connectivity ct D fuel s d0 d1 ≠ .outOfFuel ∧
    compute_entities ct D fuel s d0 ≠ .outOfFuel := by
  constructor
  · refine ne_outOfFuel_of_state? _ ?_
    by_cases hle : d1 ≤ d0
    · exact run_conn_ge_some ct D fuel s d0 d1 hwf hle (by omega)
    · obtain ⟨f1, rfl⟩ : ∃ f1, fuel = f1 + 1 := ⟨fuel - 1, by omega⟩
      show ∃ s', (run ct D (f1+1) s (.conn d0 d1)).state? = some s'
      rw [run_conn_eq_ensure]
      by_cases hp : 0 < (s.conn d0 d1).length
      · rw [if_pos hp]
        exact ⟨s, rfl⟩
      · rw [if_neg hp]
        refine state?_some_tbind _ _ (ensureEnts_some ct D f1 s d0 d1 hwf (by omega)) ?_
        intro a sb hok
        have hwfb := ensureEnts_ok_wf ct D f1 s sb d0 d1 a hok hwf
        by_cases hbz : sb.sizes d0 = 0 ∧ sb.sizes d1 = 0
        · rw [if_pos hbz]
          exact ⟨sb, rfl⟩
        · rw [if_neg hbz]
          by_cases hp2 : 0 < (sb.conn d0 d1).length
          · rw [if_pos hp2]
            exact ⟨sb, rfl⟩
          · rw [if_neg hp2, if_pos (by omega : d0 < d1)]
            refine state?_some_tbind _ _
              (run_conn_ge_some ct D f1 sb d1 d0 hwfb (by omega) (by omega)) ?_
            intro a3 sc _
            refine state?_some_tbind _ _ (transpose_state?_some sc d0 d1) ?_
            intro a4 sd _
            exact ⟨sd, rfl⟩
  · exact ne_outOfFuel_of_state? _ (run_ents_some ct D fuel s d0 hwf (by omega))

/-- Witness for C4 on the fresh single-triangle mesh with the request
`(1, 1)`. -/
theorem connectivity_recursion_terminates_witness :
    WF 2 (initState 2 3 [[0, 1, 2]]) ∧
    compute_connectivity triShape 2 12 (initState 2 3 [[0, 1, 2]]) 1 1 ≠ .outOfFuel ∧
    compute_entities triShape 2 12 (initState 2 3 [[0, 1, 2]]) 1 ≠ .outOfFuel :=
  ⟨⟨by decide, by decide, by decide, by decide⟩,
   (connectivity_recursion_terminates triShape 2 12 (initState 2 3 [[0, 1, 2]]) 1 1
      ⟨by decide, by decide, by decide, by decide⟩ (by decide) (by decide) (by decide)).1,
   (connectivity_recursion_terminates triShape 2 12 (initState 2 3 [[0, 1, 2]]) 1 1
      ⟨by decide, by decide, by decide, by decide⟩ (by decide) (by decide) (by decide)).2⟩

/-! C2: the deduplication of compute_entities. -/

/-- Counterexample to C2 as stated: on the one-triangle mesh whose degenerate
cell lists vertex 0 twice, slots 0 and 1 of cell 0 have the same sorted vertex
tuple `[0, 1]` but are assigned the distinct entity indices 0 and 1 (the
duplicate search only scans previously visited cells, never the current one),
and the returned count 3 differs from the number of distinct sorted tuples,
which is 2. -/
theorem same_sorted_tuple_distinct_indices_counterexample :
    (compute_entities triShape 2 12 (initState 2 3 [[0, 0, 1]]) 1).val? = some 3 ∧
    connOf (compute_entities triShape 2 12 (initState 2 3 [[0, 0, 1]]) 1) 2 1 =
      some [[0, 1, 2]] ∧
    connOf (compute_entities triShape 2 12 (initState 2 3 [[0, 0, 1]]) 1) 1 0 =
      some [[0, 1], [0, 1], [0, 0]] ∧
    sortKey ((createEntities triShape 1 [0, 0, 1]).getD 0 []) =
      sortKey ((createEntities triShape 1 [0, 0, 1]).getD 1 []) ∧
    (0 : Nat) ≠ 1 ∧
    ((List.range 1).flatMap (fun c =>
      (createEntities triShape 1 (([[0, 0, 1]] : List (List Nat)).getD c [])).map
        sortKey)).toFinset.card = 2 := by
  refine ⟨by decide, by decide, by decide, by decide, by decide, by decide⟩

theorem mem_transposeRows (n1 : Nat) (rowsIn : List (List Nat)) (n0 v c' : Nat) :
    c' ∈ (transposeRows n1 rowsIn n0).getD v [] ↔
      v < n0 ∧ c' < n1 ∧ v ∈ rowsIn.getD c' [] := by
  rw [transposeRows_getD]
  split
  · rename_i hv
    rw [List.mem_flatMap]
    constructor
    · rintro ⟨e1, he1, hmem⟩
      rw [List.mem_replicate] at hmem
      rw [List.mem_range] at he1
      refine ⟨hv, hmem.2 ▸ he1, ?_⟩
      rw [hmem.2]
      have := hmem.1
      rw [← List.count_pos_iff]
      omega
    · rintro ⟨-, hc, hvm⟩
      refine ⟨c', List.mem_range.mpr hc, ?_⟩
      rw [List.mem_replicate]
      have := List.count_pos_iff.mpr hvm
      exact ⟨by omega, rfl⟩
  · rename_i hv
    simp only [List.not_mem_nil, false_iff]
    intro hc
    exact hv hc.1

theorem run_conn_0D_fresh (ct : CellShape) (D f : Nat) (s : MState)
    (hD : 0 < D) (hnv : 0 < s.sizes 0) (hND : 0 < s.sizes D)
    (habs2 : (s.conn 0 D).length = 0) :
    run ct D (f+1) s (.conn 0 D) =
      tbind (run ct D f s (.conn D 0)) (fun _ sc =>
        tbind (compute_from_transpose sc 0 D) (fun _ sd => .ok 0 sd)) := by
  rw [run_conn_succ, if_neg (by omega), if_neg (by omega : ¬ s.sizes 0 = 0)]
  simp only [tbind]
  rw [if_neg (by omega : ¬ s.sizes D = 0)]
  simp only [tbind]
  rw [if_neg (fun hc : _ ∧ _ => absurd hc.1 (by omega)), if_neg (by omega), if_pos hD]

theorem run_conn_0D_fresh_eq (ct : CellShape) (D f : Nat) (s : MState)
    (hD : 0 < D) (hnv : 0 < s.sizes 0) (hND : 0 < s.sizes D)
    (hC : 0 < (s.conn D 0).length) (habs2 : (s.conn 0 D).length = 0) :
    run ct D (f+2) s (.conn 0 D) =
      .ok 0 (setConn s 0 D (transposeRows (s.sizes D) (s.conn D 0) (s.sizes 0))) := by
  rw [run_conn_0D_fresh ct D (f+1) s hD hnv hND habs2,
    show run ct D (f+1) s (.conn D 0) = .ok 0 s from by rw [run_conn_succ, if_pos hC]]
  simp only [tbind]
  unfold compute_from_transpose
  rw [if_neg (by omega)]

/-- Symbolic execution of the cell-cell connectivity request on a fresh mesh
state: its result state keeps the counts and the cell-vertex incidence, and
its cell-cell store connects `c` to exactly the other cells sharing at least
one vertex with `c` — the vertex-sharing adjacency on which the deduplication
of compute_entities relies. -/
theorem run_connDD_fresh
    (ct : CellShape) (D fuel : Nat) (s s1 : MState) (a : Nat)
    (hD : 0 < D) (hnv : 0 < s.sizes 0) (hND : 0 < s.sizes D)
    (hC : 0 < (s.conn D 0).length)
    (habs1 : (s.conn D D).length = 0) (habs2 : (s.conn 0 D).length = 0)
    (hnum : (s.conn D 0).length = s.sizes D)
    (hvlt : ∀ row ∈ s.conn D 0, ∀ v ∈ row, v < s.sizes 0)
    (hrun : run ct D fuel s (.conn D D) = .ok a s1) :
    s1.sizes = s.sizes ∧ s1.conn D 0 = s.conn D 0 ∧
    (∀ c c', c < s.sizes D →
      (c' ∈ (s1.conn D D).getD c [] ↔
        (c' ≠ c ∧ c' < s.sizes D ∧
          ∃ v, v ∈ (s.conn D 0).getD c [] ∧ v ∈ (s.conn D 0).getD c' []))) := by
  have hbody : ∀ f, run ct D (f+1) s (.conn D D) =
      tbind (run ct D f s (.conn D 0)) (fun _ sc =>
      tbind (run ct D f sc (.conn 0 D)) (fun _ sd =>
      tbind (compute_from_intersection sd D D 0) (fun _ se => .ok 0 se))) := by
    intro f
    rw [run_conn_succ, if_neg (by omega), if_neg (by omega : ¬ s.sizes D = 0)]
    simp only [tbind]
    rw [if_neg (by omega : ¬ s.sizes D = 0)]
    simp only [tbind]
    rw [if_neg (fun hc : _ ∧ _ => absurd hc.1 (by omega)), if_neg (by omega),
      if_neg (lt_irrefl D), if_neg (fun hc : _ ∧ _ => absurd hc.2 (by omega)),
      show (if D = 0 ∧ D = 0 then D else 0) = 0 from
        if_neg (fun hc : _ ∧ _ => absurd hc.1 (by omega))]
  match fuel with
  | 0 => exact absurd hrun (by simp [run])
  | 1 =>
    rw [hbody 0] at hrun
    exact absurd hrun (by simp [run, tbind])
  | 2 =>
    rw [hbody 1,
      show run ct D 1 s (.conn D 0) = .ok 0 s from by rw [run_conn_succ, if_pos hC]] at hrun
    simp only [tbind] at hrun
    rw [run_conn_0D_fresh ct D 0 s hD hnv hND habs2] at hrun
    exact absurd hrun (by simp [run, tbind])
  | f + 3 =>
    rw [hbody (f+2),
      show run ct D (f+2) s (.conn D 0) = .ok 0 s from by
        rw [run_conn_succ, if_pos hC]] at hrun
    simp only [tbind] at hrun
    rw [run_conn_0D_fresh_eq ct D f s hD hnv hND hC habs2] at hrun
    simp only [tbind] at hrun
    set s2 := setConn s 0 D (transposeRows (s.sizes D) (s.conn D 0) (s.sizes 0)) with hs2
    have hs2D0 : s2.conn D 0 = s.conn D 0 :=
      setConn_conn_ne _ _ _ _ _ _ (fun hc => by omega)
    have hs20D : s2.conn 0 D = transposeRows (s.sizes D) (s.conn D 0) (s.sizes 0) :=
      setConn_conn_self _ _ _ _
    have hint : compute_from_intersection s2 D D 0 =
        .ok () (setConn s2 D D ((List.range (s2.sizes 0+0+s.sizes D-s.sizes 0)).map (fun e0 =>
          intersectRow (keepTest s2 D D e0) ((s2.conn D 0).getD e0 []) (s2.conn 0 D)))) := by
      unfold compute_from_intersection
      rw [if_neg (fun hc => hc (Nat.le_refl D)), if_neg (by rw [hs2D0]; omega),
        if_neg (by rw [hs20D, transposeRows_length]; omega)]
      have : s2.sizes D = s2.sizes 0 + 0 + s.sizes D - s.sizes 0 := by
        have h1 : s2.sizes D = s.sizes D := rfl
        have h2 : s2.sizes 0 = s.sizes 0 := rfl
        omega
      rw [← this]
    rw [hint] at hrun
    simp only [tbind] at hrun
    rw [TCResult.ok.injEq] at hrun
    obtain ⟨-, hs1⟩ := hrun
    subst hs1
    have hrows : s2.sizes 0 + 0 + s.sizes D - s.sizes 0 = s.sizes D := by
      have h2 : s2.sizes 0 = s.sizes 0 := rfl
      omega
    refine ⟨rfl, ?_, ?_⟩
    · rw [setConn_conn_ne _ _ _ _ _ _ (fun hc => by omega), hs2D0]
    · intro c c' hc
      rw [setConn_conn_self, hrows, getD_map_range, if_pos hc, mem_intersectRow]
      have hkeep : ∀ e1, keepTest s2 D D c e1 = true ↔ e1 ≠ c := by
        intro e1
        unfold keepTest
        rw [if_pos rfl]
        simp
      rw [hkeep, hs2D0, hs20D]
      constructor
      · rintro ⟨⟨v, hvc, hvt⟩, hne⟩
        rw [mem_transposeRows] at hvt
        exact ⟨hne, hvt.2.1, v, hvc, hvt.2.2⟩
      · rintro ⟨hne, hcn, v, hvc, hvc'⟩
        refine ⟨⟨v, hvc, ?_⟩, hne⟩
        rw [mem_transposeRows]
        have hrowmem : (s.conn D 0).getD c [] ∈ s.conn D 0 := by
          rw [List.getD_eq_getElem?_getD, List.getElem?_eq_getElem (by omega)]
          exact List.getElem_mem _
        exact ⟨hvlt _ hrowmem v hvc, hcn, hvc'⟩

theorem getD_eq_getElem (l : List α) (i : Nat) (d : α) (h : i < l.length) :
    l.getD i d = l[i] := by
  rw [List.getD_eq_getElem?_getD, List.getElem?_eq_getElem h]
  rfl

theorem mem_getD_lt (l : List (List β)) (i : Nat) (p : β) (h : p ∈ l.getD i []) :
    i < l.length := by
  by_contra hn
  rw [List.getD_eq_getElem?_getD, List.getElem?_eq_none (by omega)] at h
  exact absurd h (List.not_mem_nil p)

theorem getD_mem (l : List (List β)) (i : Nat) (h : i < l.length) : l.getD i [] ∈ l := by
  rw [getD_eq_getElem _ _ _ h]
  exact List.getElem_mem h

theorem flatten_append_singleton (A : List (List β)) (m : List β) :
    (A ++ [m]).flatten = A.flatten ++ m := by
  rw [List.flatten_append, List.flatten_cons, List.flatten_nil, List.append_nil]

theorem getD_append_length (l : List β) (x d : β) : (l ++ [x]).getD l.length d = x := by
  rw [List.getD_append_right _ _ _ _ (Nat.le_refl _), Nat.sub_self]
  rfl

/-- The candidate tuples of one cell, for the invariant statements. -/
def tuplesOf (ct : CellShape) (dim : Nat) (cv : List (List Nat)) (c : Nat) :
    List (List Nat) :=
  createEntities ct dim (cv.getD c [])

/-- The sorted lookup key of one slot of one cell. -/
def keyAt (ct : CellShape) (dim : Nat) (cv : List (List Nat)) (c k : Nat) : List Nat :=
  sortKey ((tuplesOf ct dim cv c).getD k [])

theorem keyAt_facts (ct : CellShape) (dim : Nat) (cv : List (List Nat)) (L c k : Nat)
    (hlen : ∀ row ∈ cv, row.length = L)
    (htab : ∀ t ∈ ct.local_entities dim, t ≠ [] ∧ ∀ j ∈ t, j < L)
    (hc : c < cv.length) (hk : k < (tuplesOf ct dim cv c).length) :
    keyAt ct dim cv c k ≠ [] ∧ ∀ v ∈ keyAt ct dim cv c k, v ∈ cv.getD c [] := by
  have hklen : k < (ct.local_entities dim).length := by
    have : (tuplesOf ct dim cv c).length = (ct.local_entities dim).length := by
      unfold tuplesOf createEntities
      rw [List.length_map]
    omega
  have htup : (tuplesOf ct dim cv c).getD k [] =
      ((ct.local_entities dim)[k]).map (fun j => (cv.getD c []).getD j 0) := by
    rw [getD_eq_getElem _ _ _ hk]
    unfold tuplesOf createEntities
    rw [List.getElem_map]
  obtain ⟨hne, hjs⟩ := htab _ (List.getElem_mem hklen)
  have hperm := sortKey_perm ((tuplesOf ct dim cv c).getD k [])
  constructor
  · intro hnil
    unfold keyAt at hnil
    rw [hnil] at hperm
    have := hperm.symm.length_eq
    rw [htup, List.length_map] at this
    exact hne (List.eq_nil_of_length_eq_zero (by simpa using this))
  · intro v hv
    have hv2 : v ∈ (tuplesOf ct dim cv c).getD k [] := hperm.mem_iff.mp hv
    rw [htup, List.mem_map] at hv2
    obtain ⟨j, hj, rfl⟩ := hv2
    have hjL : j < (cv.getD c []).length := by
      rw [hlen _ (getD_mem cv c hc)]
      exact hjs j hj
    rw [getD_eq_getElem _ _ _ hjL]
    exact List.getElem_mem hjL

theorem findEntityIn_some_spec (A : List (List (Nat × List Nat))) (c : Nat)
    (adjRow : List Nat) (key : List Nat) (e : Nat)
    (h : findEntityIn A c adjRow key = some e) :
    ∃ c0 ∈ adjRow, c0 < c ∧ ∃ p ∈ A.getD c0 [], p.2 = key ∧ p.1 = e := by
  unfold findEntityIn at h
  rw [List.findSome?_eq_some_iff] at h
  obtain ⟨l1, c0, l2, hsplit, hf, -⟩ := h
  have hmem : c0 ∈ adjRow := by
    rw [hsplit]
    exact List.mem_append_right _ (List.mem_cons_self _ _)
  split at hf
  · rename_i hlt
    rw [List.findSome?_eq_some_iff] at hf
    obtain ⟨m1, p, m2, hsplit2, hg, -⟩ := hf
    have hpmem : p ∈ A.getD c0 [] := by
      rw [hsplit2]
      exact List.mem_append_right _ (List.mem_cons_self _ _)
    split at hg
    · rename_i hkey
      rw [Option.some.injEq] at hg
      exact ⟨c0, hmem, hlt, p, hpmem, hkey, hg⟩
    · exact absurd hg (by simp)
  · exact absurd hf (by simp)

theorem findEntityIn_none_spec (A : List (List (Nat × List Nat))) (c : Nat)
    (adjRow : List Nat) (key : List Nat)
    (h : findEntityIn A c adjRow key = none) :
    ∀ c0 ∈ adjRow, c0 < c → ∀ p ∈ A.getD c0 [], p.2 ≠ key := by
  unfold findEntityIn at h
  rw [List.findSome?_eq_none_iff] at h
  intro c0 hc0 hlt p hp hkey
  have := h c0 hc0
  rw [if_pos hlt, List.findSome?_eq_none_iff] at this
  have := this p hp
  rw [if_pos hkey] at this
  exact absurd this (by simp)

theorem entry_lookup (A : List (List (Nat × List Nat))) (ev : List (List Nat)) (cnt : Nat)
    (hfst : A.flatten.map Prod.fst = List.range cnt)
    (hsnd : A.flatten.map Prod.snd = ev)
    (p : Nat × List Nat) (hp : p ∈ A.flatten) :
    p.1 < cnt ∧ ev.getD p.1 [] = p.2 := by
  obtain ⟨i, hi, hget⟩ := List.mem_iff_getElem.mp hp
  have hlen : A.flatten.length = cnt := by
    have := congrArg List.length hfst
    rwa [List.length_map, List.length_range] at this
  have hp1 : p.1 = i := by
    have h1 := congrArg (fun l => l[i]?) hfst
    simp only [List.getElem?_map] at h1
    rw [List.getElem?_eq_getElem hi, hget, List.getElem?_range (by omega)] at h1
    simpa using h1
  refine ⟨by omega, ?_⟩
  have h2 := congrArg (fun l => l[i]?) hsnd
  simp only [List.getElem?_map] at h2
  rw [List.getElem?_eq_getElem hi, hget] at h2
  rw [hp1, List.getD_eq_getElem?_getD, ← h2]
  rfl

/-- Invariant of the cell loop of compute_entities after the first `c` cells
have been processed. -/
def EntInv (ct : CellShape) (dim : Nat) (cv : List (List Nat)) (c : Nat)
    (acc : EntAcc) : Prop :=
  acc.ceList.length = c ∧
  acc.connCe.length = c ∧
  acc.counter = acc.connEv.length ∧
  acc.ceList.flatten.map Prod.fst = List.range acc.counter ∧
  acc.ceList.flatten.map Prod.snd = acc.connEv ∧
  acc.connEv.Nodup ∧
  (∀ i, ∀ p ∈ acc.ceList.getD i [], ∃ k, k < (tuplesOf ct dim cv i).length ∧
    p.2 = keyAt ct dim cv i k) ∧
  (∀ i, i < c → (acc.connCe.getD i []).length = (tuplesOf ct dim cv i).length) ∧
  (∀ i k, i < c → k < (tuplesOf ct dim cv i).length →
    (acc.connCe.getD i []).getD k 0 < acc.counter ∧
    acc.connEv.getD ((acc.connCe.getD i []).getD k 0) [] = keyAt ct dim cv i k)

/-- Invariant of the slot loop of compute_entities after the first `k` slots
of cell `c` have been processed, relative to the state `base` at the start of
the cell. -/
def CellInv (ct : CellShape) (dim : Nat) (cv : List (List Nat)) (c : Nat)
    (base : EntAcc) (k : Nat) (st : CellAcc) : Prop :=
  st.myCe.length = k ∧
  st.counter = st.connEv.length ∧
  (base.ceList ++ [st.myList]).flatten.map Prod.fst = List.range st.counter ∧
  (base.ceList ++ [st.myList]).flatten.map Prod.snd = st.connEv ∧
  st.connEv.Nodup ∧
  (∀ p ∈ st.myList, ∃ k', k' < k ∧ p.2 = keyAt ct dim cv c k') ∧
  (∀ k', k' < k → st.myCe.getD k' 0 < st.counter ∧
    st.connEv.getD (st.myCe.getD k' 0) [] = keyAt ct dim cv c k') ∧
  (∃ ext, st.connEv = base.connEv ++ ext)

theorem nodup_getD_inj (l : List (List Nat)) (h : l.Nodup) (i j : Nat)
    (hi : i < l.length) (hj : j < l.length) (he : l.getD i [] = l.getD j []) : i = j := by
  rw [getD_eq_getElem _ _ _ hi, getD_eq_getElem _ _ _ hj] at he
  exact (List.Nodup.getElem_inj_iff h).mp he

theorem slotStep_inv
    (ct : CellShape) (dim : Nat) (cv adj : List (List Nat)) (L : Nat)
    (hlen : ∀ row ∈ cv, row.length = L)
    (htab : ∀ t ∈ ct.local_entities dim, t ≠ [] ∧ ∀ j ∈ t, j < L)
    (hadj : ∀ c c', c < cv.length →
      (c' ∈ adj.getD c [] ↔ c' ≠ c ∧ c' < cv.length ∧
        ∃ v, v ∈ cv.getD c [] ∧ v ∈ cv.getD c' []))
    (hdist : ∀ c, c < cv.length → ((tuplesOf ct dim cv c).map sortKey).Nodup)
    (base : EntAcc) (c k : Nat) (st : CellAcc)
    (hc : c < cv.length)
    (hbase : EntInv ct dim cv c base)
    (hinv : CellInv ct dim cv c base k st)
    (hk : k < (tuplesOf ct dim cv c).length) :
    CellInv ct dim cv c base (k+1)
      (slotStep base.ceList c (adj.getD c []) st ((tuplesOf ct dim cv c).getD k [])) := by
  obtain ⟨hbl, hbc, hbcnt, hbfst, hbsnd, hbnd, hbkeys, hblen2, hbix⟩ := hbase
  obtain ⟨hmyce, hcnt, hfst, hsnd, hnd, hmyl, hix, hext⟩ := hinv
  have hkey : sortKey ((tuplesOf ct dim cv c).getD k []) = keyAt ct dim cv c k := rfl
  cases hfind : findEntityIn base.ceList c (adj.getD c []) (keyAt ct dim cv c k) with
  | some e =>
    have hstep : slotStep base.ceList c (adj.getD c []) st ((tuplesOf ct dim cv c).getD k []) =
        { st with myCe := st.myCe ++ [e] } := by
      simp only [slotStep, hkey, hfind]
    rw [hstep]
    dsimp only [CellInv]
    obtain ⟨c0, hc0mem, hc0lt, p, hpmem, hpkey, hpe⟩ :=
      findEntityIn_some_spec _ _ _ _ _ hfind
    have hpflat : p ∈ (base.ceList ++ [st.myList]).flatten := by
      rw [flatten_append_singleton]
      refine List.mem_append_left _ ?_
      rw [List.mem_flatten]
      exact ⟨base.ceList.getD c0 [], getD_mem _ _ (mem_getD_lt _ _ _ hpmem), hpmem⟩
    obtain ⟨helt, hegetd⟩ := entry_lookup _ _ _ hfst hsnd p hpflat
    refine ⟨by simp [hmyce], hcnt, hfst, hsnd, hnd, ?_, ?_, hext⟩
    · intro p2 hp2
      obtain ⟨k1, hk1, hkey1⟩ := hmyl p2 hp2
      exact ⟨k1, by omega, hkey1⟩
    · intro k1 hk1
      rcases Nat.lt_or_ge k1 k with hlt | hge
      · rw [List.getD_append _ _ _ _ (by omega)]
        exact hix k1 hlt
      · have hk1eq : k1 = k := by omega
        subst hk1eq
        have hgd : (st.myCe ++ [e]).getD k1 0 = e := by
          rw [← hmyce]
          exact getD_append_length _ _ _
        rw [hgd, hpe] at *
        rw [hgd]
        rw [hpe] at helt hegetd
        exact ⟨helt, by rw [hegetd, hpkey]⟩
  | none =>
    have hstep : slotStep base.ceList c (adj.getD c []) st ((tuplesOf ct dim cv c).getD k []) =
        { myList := st.myList ++ [(st.counter, keyAt ct dim cv c k)]
          myCe := st.myCe ++ [st.counter]
          connEv := st.connEv ++ [keyAt ct dim cv c k]
          counter := st.counter + 1 } := by
      simp only [slotStep, hkey, hfind]
    rw [hstep]
    dsimp only [CellInv]
    have hnotin : keyAt ct dim cv c k ∉ st.connEv := by
      intro hmem
      rw [← hsnd, List.mem_map] at hmem
      obtain ⟨p, hpflat, hpkey⟩ := hmem
      rw [flatten_append_singleton, List.mem_append] at hpflat
      rcases hpflat with hpA | hpM
      · rw [List.mem_flatten] at hpA
        obtain ⟨l, hlmem, hpl⟩ := hpA
        obtain ⟨i, hilen, hli⟩ := List.mem_iff_getElem.mp hlmem
        have hpgetd : p ∈ base.ceList.getD i [] := by
          rw [getD_eq_getElem _ _ _ hilen, hli]
          exact hpl
        have hic : i < c := by rw [← hbl]; exact hilen
        obtain ⟨ks, hks, hpkey2⟩ := hbkeys i p hpgetd
        obtain ⟨hkne, hkmemc⟩ := keyAt_facts ct dim cv L c k hlen htab hc hk
        obtain ⟨-, hkmemi⟩ := keyAt_facts ct dim cv L i ks hlen htab (by omega) hks
        obtain ⟨v, hv⟩ := List.exists_mem_of_length_pos (List.length_pos.mpr hkne)
        have hvc : v ∈ cv.getD c [] := hkmemc v hv
        have hvi : v ∈ cv.getD i [] := by
          apply hkmemi
          rw [← hpkey2, hpkey]
          exact hv
        have hiadj : i ∈ adj.getD c [] := (hadj c i hc).mpr ⟨by omega, by omega, v, hvc, hvi⟩
        exact findEntityIn_none_spec _ _ _ _ hfind i hiadj hic p hpgetd hpkey
      · obtain ⟨k1, hk1lt, hpk1⟩ := hmyl p hpM
        have hkk : keyAt ct dim cv c k1 = keyAt ct dim cv c k := by rw [← hpk1, hpkey]
        have hgk1 : ((tuplesOf ct dim cv c).map sortKey).getD k1 [] = keyAt ct dim cv c k1 := by
          rw [getD_eq_getElem _ _ _ (by rw [List.length_map]; omega), List.getElem_map,
            keyAt, getD_eq_getElem _ _ _ (by omega)]
        have hgk2 : ((tuplesOf ct dim cv c).map sortKey).getD k [] = keyAt ct dim cv c k := by
          rw [getD_eq_getElem _ _ _ (by rw [List.length_map]; omega), List.getElem_map,
            keyAt, getD_eq_getElem _ _ _ (by omega)]
        have := nodup_getD_inj _ (hdist c hc) k1 k
          (by rw [List.length_map]; omega) (by rw [List.length_map]; omega)
          (by rw [hgk1, hgk2, hkk])
        omega
    have hfl : (base.ceList ++ [st.myList ++ [(st.counter, keyAt ct dim cv c k)]]).flatten =
        (base.ceList ++ [st.myList]).flatten ++ [(st.counter, keyAt ct dim cv c k)] := by
      rw [flatten_append_singleton, flatten_append_singleton, List.append_assoc]
    refine ⟨by simp [hmyce], by simp [hcnt], ?_, ?_, ?_, ?_, ?_, ?_⟩
    · rw [hfl, List.map_append, hfst, List.range_succ, hcnt]
      rfl
    · rw [hfl, List.map_append, hsnd]
      rfl
    · rw [List.nodup_append]
      exact ⟨hnd, List.nodup_singleton _,
        fun a ha hb => hnotin ((List.mem_singleton.mp hb) ▸ ha)⟩
    · intro p hp
      rw [List.mem_append] at hp
      rcases hp with hp | hp
      · obtain ⟨k1, h1, h2⟩ := hmyl p hp
        exact ⟨k1, by omega, h2⟩
      · rw [List.mem_singleton] at hp
        subst hp
        exact ⟨k, by omega, rfl⟩
    · intro k1 hk1
      rcases Nat.lt_or_ge k1 k with hlt | hge
      · obtain ⟨hlt2, hget⟩ := hix k1 hlt
        rw [List.getD_append _ _ _ _ (by omega)]
        refine ⟨by omega, ?_⟩
        rw [List.getD_append _ _ _ _ (by omega)]
        exact hget
      · have hk1eq : k1 = k := by omega
        subst hk1eq
        have hgd : (st.myCe ++ [st.counter]).getD k1 0 = st.counter := by
          rw [← hmyce]
          exact getD_append_length _ _ _
        rw [hgd]
        refine ⟨by omega, ?_⟩
        rw [hcnt]
        exact getD_append_length _ _ _
    · obtain ⟨ext, hextq⟩ := hext
      exact ⟨ext ++ [keyAt ct dim cv c k], by rw [hextq, List.append_assoc]⟩

theorem cellFold_inv
    (ct : CellShape) (dim : Nat) (cv adj : List (List Nat)) (L : Nat)
    (hlen : ∀ row ∈ cv, row.length = L)
    (htab : ∀ t ∈ ct.local_entities dim, t ≠ [] ∧ ∀ j ∈ t, j < L)
    (hadj : ∀ c c', c < cv.length →
      (c' ∈ adj.getD c [] ↔ c' ≠ c ∧ c' < cv.length ∧
        ∃ v, v ∈ cv.getD c [] ∧ v ∈ cv.getD c' []))
    (hdist : ∀ c, c < cv.length → ((tuplesOf ct dim cv c).map sortKey).Nodup)
    (base : EntAcc) (c : Nat) (hc : c < cv.length) (hbase : EntInv ct dim cv c base) :
    ∀ nrem k st, k + nrem = (tuplesOf ct dim cv c).length →
      CellInv ct dim cv c base k st →
      CellInv ct dim cv c base (tuplesOf ct dim cv c).length
        (((tuplesOf ct dim cv c).drop k).foldl
          (slotStep base.ceList c (adj.getD c [])) st) := by
  intro nrem
  induction nrem with
  | zero =>
    intro k st hsum hinv
    rw [List.drop_eq_nil_of_le (by omega), List.foldl_nil]
    have hkl : k = (tuplesOf ct dim cv c).length := by omega
    rw [hkl] at hinv
    exact hinv
  | succ n ih =>
    intro k st hsum hinv
    have hklt : k < (tuplesOf ct dim cv c).length := by omega
    rw [List.drop_eq_getElem_cons hklt, List.foldl_cons]
    have hget : (tuplesOf ct dim cv c)[k] = (tuplesOf ct dim cv c).getD k [] :=
      (getD_eq_getElem _ _ _ hklt).symm
    rw [hget]
    exact ih (k+1) _ (by omega)
      (slotStep_inv ct dim cv adj L hlen htab hadj hdist base c k st hc hbase hinv hklt)

theorem processCell_inv
    (ct : CellShape) (dim : Nat) (cv adj : List (List Nat)) (L : Nat)
    (hlen : ∀ row ∈ cv, row.length = L)
    (htab : ∀ t ∈ ct.local_entities dim, t ≠ [] ∧ ∀ j ∈ t, j < L)
    (hadj : ∀ c c', c < cv.length →
      (c' ∈ adj.getD c [] ↔ c' ≠ c ∧ c' < cv.length ∧
        ∃ v, v ∈ cv.getD c [] ∧ v ∈ cv.getD c' []))
    (hdist : ∀ c, c < cv.length → ((tuplesOf ct dim cv c).map sortKey).Nodup)
    (acc : EntAcc) (c : Nat) (hc : c < cv.length) (hacc : EntInv ct dim cv c acc) :
    EntInv ct dim cv (c+1) (processCell acc c (adj.getD c []) (tuplesOf ct dim cv c)) := by
  obtain ⟨hal, hac, hacnt, hafst, hasnd, hand, hakeys, halen2, haix⟩ := hacc
  have hst0 : CellInv ct dim cv c acc 0 ⟨[], [], acc.connEv, acc.counter⟩ := by
    refine ⟨rfl, hacnt, ?_, ?_, hand, ?_, ?_, ⟨[], (List.append_nil _).symm⟩⟩
    · rw [flatten_append_singleton, List.append_nil]
      exact hafst
    · rw [flatten_append_singleton, List.append_nil]
      exact hasnd
    · intro p hp
      exact absurd hp (List.not_mem_nil p)
    · intro k hk
      exact absurd hk (by omega)
  have hfold := cellFold_inv ct dim cv adj L hlen htab hadj hdist acc c hc
    ⟨hal, hac, hacnt, hafst, hasnd, hand, hakeys, halen2, haix⟩
    (tuplesOf ct dim cv c).length 0 ⟨[], [], acc.connEv, acc.counter⟩ (by omega) hst0
  rw [List.drop_zero] at hfold
  set r := (tuplesOf ct dim cv c).foldl (slotStep acc.ceList c (adj.getD c []))
    ⟨[], [], acc.connEv, acc.counter⟩ with hr
  obtain ⟨hrce, hrcnt, hrfst, hrsnd, hrnd, hrmyl, hrix, hrext⟩ := hfold
  have hstep : processCell acc c (adj.getD c []) (tuplesOf ct dim cv c) =
      { ceList := acc.ceList ++ [r.myList]
        connCe := acc.connCe ++ [r.myCe]
        connEv := r.connEv
        counter := r.counter } := by
    simp only [processCell, hr]
  rw [hstep]
  dsimp only [EntInv]
  have haccle : acc.counter ≤ r.counter := by
    obtain ⟨ext, hext⟩ := hrext
    have := congrArg List.length hext
    rw [List.length_append] at this
    omega
  have hevpre : ∀ i, i < acc.counter → r.connEv.getD i [] = acc.connEv.getD i [] := by
    intro i hi
    obtain ⟨ext, hext⟩ := hrext
    rw [hext, List.getD_append _ _ _ _ (by omega)]
  refine ⟨?_, ?_, hrcnt, hrfst, hrsnd, hrnd, ?_, ?_, ?_⟩
  · simp [hal]
  · simp [hac]
  · intro i p hp
    have hi := mem_getD_lt _ _ _ hp
    simp only [List.length_append, hal, List.length_singleton] at hi
    rcases Nat.lt_or_ge i c with hic | hic
    · rw [List.getD_append _ _ _ _ (by omega : i < acc.ceList.length)] at hp
      exact hakeys i p hp
    · have hieq : i = c := by omega
      have hgd : (acc.ceList ++ [r.myList]).getD i [] = r.myList := by
        rw [hieq, ← hal]
        exact getD_append_length _ _ _
      rw [hgd] at hp
      obtain ⟨k1, hk1, hkey1⟩ := hrmyl p hp
      exact ⟨k1, by rw [hieq]; exact hk1, by rw [hieq]; exact hkey1⟩
  · intro i hi
    rcases Nat.lt_or_ge i c with hic | hic
    · rw [List.getD_append _ _ _ _ (by omega : i < acc.connCe.length)]
      exact halen2 i hic
    · have hieq : i = c := by omega
      have hgd : (acc.connCe ++ [r.myCe]).getD i [] = r.myCe := by
        rw [hieq, ← hac]
        exact getD_append_length _ _ _
      rw [hgd, hieq]
      exact hrce
  · intro i k hi hk
    rcases Nat.lt_or_ge i c with hic | hic
    · rw [List.getD_append _ _ _ _ (by omega : i < acc.connCe.length)]
      obtain ⟨hlt2, hget⟩ := haix i k hic hk
      exact ⟨by omega, by rw [hevpre _ hlt2]; exact hget⟩
    · have hieq : i = c := by omega
      have hgd : (acc.connCe ++ [r.myCe]).getD i [] = r.myCe := by
        rw [hieq, ← hac]
        exact getD_append_length _ _ _
      have hk2 : k < (tuplesOf ct dim cv c).length := by
        rw [← hieq]
        exact hk
      rw [hgd, hieq]
      exact hrix k hk2

theorem entitiesOfCells_inv (ct : CellShape) (dim : Nat) (cv adj : List (List Nat)) (L : Nat)
    (hlen : ∀ row ∈ cv, row.length = L)
    (htab : ∀ t ∈ ct.local_entities dim, t ≠ [] ∧ ∀ j ∈ t, j < L)
    (hadj : ∀ c c', c < cv.length →
      (c' ∈ adj.getD c [] ↔ c' ≠ c ∧ c' < cv.length ∧
        ∃ v, v ∈ cv.getD c [] ∧ v ∈ cv.getD c' []))
    (hdist : ∀ c, c < cv.length → ((tuplesOf ct dim cv c).map sortKey).Nodup) :
    ∀ n, n ≤ cv.length → EntInv ct dim cv n (entitiesOfCells ct dim n cv adj) := by
  intro n
  induction n with
  | zero =>
    intro _
    refine ⟨rfl, rfl, rfl, rfl, rfl, List.nodup_nil, ?_, ?_, ?_⟩
    · intro i p hp
      exact absurd hp (by cases i <;> exact List.not_mem_nil p)
    · intro i hi
      exact absurd hi (by omega)
    · intro i k hi
      exact absurd hi (by omega)
  | succ m ih =>
    intro hm
    rw [entitiesOfCells_succ]
    have hcell : tuplesOf ct dim cv m = createEntities ct dim (cv.getD m []) := rfl
    rw [← hcell]
    exact processCell_inv ct dim cv adj L hlen htab hadj hdist _ m (by omega) (ih (by omega))

/-- C2 amended.  After a generation pass of compute_entities(dim) on a fresh
well-formed mesh state — provided additionally that within each cell the
candidate sorted vertex tuples are pairwise distinct (which a cell with a
repeated vertex violates) and every candidate tuple is non-empty with
in-range local indices — two local entities `(c, k)` and `(c', k')` are
assigned the same global entity index if and only if their sorted vertex
tuples are equal; consequently any two distinct entities of dimension `dim`
have different stored vertex tuples, and the returned count equals the number
of distinct sorted vertex tuples over all cells and slots. -/
theorem entity_dedup_characterization
    (ct : CellShape) (D dim fuel n : Nat) (s s' : MState)
    (hD : 0 < D) (hnv : 0 < s.sizes 0) (hND : 0 < s.sizes D)
    (hnum : (s.conn D 0).length = s.sizes D)
    (habs1 : (s.conn D D).length = 0) (habs2 : (s.conn 0 D).length = 0)
    (hszdim : s.sizes dim = 0)
    (hvlt : ∀ row ∈ s.conn D 0, ∀ v ∈ row, v < s.sizes 0)
    (hlen : ∀ row ∈ s.conn D 0, row.length = ct.num_vertices D)
    (htab : ∀ t ∈ ct.local_entities dim, t ≠ [] ∧ ∀ j ∈ t, j < ct.num_vertices D)
    (hdist : ∀ c, c < s.sizes D →
      ((createEntities ct dim ((s.conn D 0).getD c [])).map sortKey).Nodup)
    (hok : compute_entities ct D fuel s dim = .ok n s') :
    (∀ c c' k k', c < s.sizes D → c' < s.sizes D →
      k < (createEntities ct dim ((s.conn D 0).getD c [])).length →
      k' < (createEntities ct dim ((s.conn D 0).getD c' [])).length →
      (((s'.conn D dim).getD c []).getD k 0 = ((s'.conn D dim).getD c' []).getD k' 0 ↔
        sortKey ((createEntities ct dim ((s.conn D 0).getD c [])).getD k []) =
          sortKey ((createEntities ct dim ((s.conn D 0).getD c' [])).getD k' []))) ∧
    (s'.conn dim 0).Nodup ∧
    n = ((List.range (s.sizes D)).flatMap (fun c =>
      (createEntities ct dim ((s.conn D 0).getD c [])).map sortKey)).toFinset.card := by
  have hdim0 : dim ≠ 0 := fun h => by rw [h] at hszdim; omega
  have hdimD : dim ≠ D := fun h => by rw [h] at hszdim; omega
  obtain ⟨fuel1, s1, a, rfl, hDD, hn, hs'⟩ :=
    compute_entities_ok_cases ct D fuel s s' dim n hszdim hok
  obtain ⟨hsz1, hcv1, hadj1⟩ :=
    run_connDD_fresh ct D fuel1 s s1 a hD hnv hND (by omega) habs1 habs2 hnum hvlt hDD
  set cv := s.conn D 0 with hcv
  set adj := s1.conn D D with hadjdef
  have hargs : entitiesOfCells ct dim (s1.sizes D) (s1.conn D 0) (s1.conn D D) =
      entitiesOfCells ct dim cv.length cv adj := by
    rw [hcv1, hsz1, ← hnum]
  have hadj2 : ∀ c c', c < cv.length →
      (c' ∈ adj.getD c [] ↔ c' ≠ c ∧ c' < cv.length ∧
        ∃ v, v ∈ cv.getD c [] ∧ v ∈ cv.getD c' []) := by
    intro c c' hc
    rw [hnum]
    exact hadj1 c c' (by omega)
  have hEnt := entitiesOfCells_inv ct dim cv adj (ct.num_vertices D) hlen htab hadj2
    (fun c hc => hdist c (by omega)) cv.length (Nat.le_refl _)
  set acc := entitiesOfCells ct dim cv.length cv adj with haccdef
  have hCe : s'.conn D dim = acc.connCe := by
    rw [hs', setConn_conn_ne _ _ _ _ _ _ (fun hcd => hdimD hcd.1.symm), setConn_conn_self,
      hargs]
  have hEv : s'.conn dim 0 = acc.connEv := by
    rw [hs', setConn_conn_self, hargs]
  have hN : n = acc.connEv.length := by
    rw [hn, hargs]
  obtain ⟨hel, hec, hecnt, hefst, hesnd, hend, hekeys, helen2, heix⟩ := hEnt
  refine ⟨?_, ?_, ?_⟩
  · intro c c' k k' hc hc' hk hk'
    have hcL : c < cv.length := by omega
    have hc2L : c' < cv.length := by omega
    obtain ⟨hixlt, hixkey⟩ := heix c k hcL hk
    obtain ⟨hixlt2, hixkey2⟩ := heix c' k' hc2L hk'
    rw [hCe]
    constructor
    · intro heq
      show keyAt ct dim cv c k = keyAt ct dim cv c' k'
      rw [← hixkey, ← hixkey2, heq]
    · intro hkeq
      have hkeq2 : keyAt ct dim cv c k = keyAt ct dim cv c' k' := hkeq
      apply nodup_getD_inj acc.connEv hend _ _ (by omega) (by omega)
      rw [hixkey, hixkey2]
      exact hkeq2
  · rw [hEv]
    exact hend
  · rw [hN]
    have hsub : ∀ x ∈ acc.connEv, x ∈ (List.range (s.sizes D)).flatMap (fun c =>
        (createEntities ct dim (cv.getD c [])).map sortKey) := by
      intro x hx
      rw [← hesnd, List.mem_map] at hx
      obtain ⟨p, hpflat, hpkey⟩ := hx
      rw [List.mem_flatten] at hpflat
      obtain ⟨l, hlmem, hpl⟩ := hpflat
      obtain ⟨i, hilen, hli⟩ := List.mem_iff_getElem.mp hlmem
      have hpgetd : p ∈ acc.ceList.getD i [] := by
        rw [getD_eq_getElem _ _ _ hilen, hli]
        exact hpl
      obtain ⟨k1, hk1, hpk1⟩ := hekeys i p hpgetd
      have hiL : i < cv.length := by
        rw [← hel]
        exact hilen
      rw [List.mem_flatMap]
      refine ⟨i, List.mem_range.mpr (by omega), ?_⟩
      rw [List.mem_map]
      refine ⟨(tuplesOf ct dim cv i).getD k1 [], getD_mem _ _ hk1, ?_⟩
      rw [← hpkey, hpk1]
      rfl
    have hsup : ∀ c k1, c < s.sizes D →
        k1 < (createEntities ct dim (cv.getD c [])).length →
        sortKey ((createEntities ct dim (cv.getD c [])).getD k1 []) ∈ acc.connEv := by
      intro c k1 hc hk1
      obtain ⟨hlt, hkey⟩ := heix c k1 (by omega) hk1
      show keyAt ct dim cv c k1 ∈ acc.connEv
      rw [← hkey, getD_eq_getElem _ _ _ (by omega)]
      exact List.getElem_mem _
    have hfs : acc.connEv.toFinset = ((List.range (s.sizes D)).flatMap (fun c =>
        (createEntities ct dim (cv.getD c [])).map sortKey)).toFinset := by
      apply Finset.ext
      intro x
      rw [List.mem_toFinset, List.mem_toFinset]
      constructor
      · exact hsub x
      · intro hx
        rw [List.mem_flatMap] at hx
        obtain ⟨c, hcr, hxm⟩ := hx
        rw [List.mem_range] at hcr
        rw [List.mem_map] at hxm
        obtain ⟨t, ht, hts⟩ := hxm
        obtain ⟨j, hj, hjt⟩ := List.mem_iff_getElem.mp ht
        rw [← hts, ← hjt, ← getD_eq_getElem _ _ _ hj]
        exact hsup c j hcr hj
    rw [← hfs, List.toFinset_card_of_nodup hend]

/-- Witness for C2 (amended) on the fresh two-triangle mesh sharing an
edge. -/
theorem entity_dedup_characterization_witness :
    ((0:Nat) < 2 ∧ (initState 2 4 [[0, 1, 2], [1, 3, 2]]).sizes 1 = 0 ∧
      (∀ c, c < (initState 2 4 [[0, 1, 2], [1, 3, 2]]).sizes 2 →
        ((createEntities triShape 1
          (((initState 2 4 [[0, 1, 2], [1, 3, 2]]).conn 2 0).getD c [])).map
            sortKey).Nodup)) ∧
    ((∀ c c' k k', c < (initState 2 4 [[0, 1, 2], [1, 3, 2]]).sizes 2 →
      c' < (initState 2 4 [[0, 1, 2], [1, 3, 2]]).sizes 2 →
      k < (createEntities triShape 1
        (((initState 2 4 [[0, 1, 2], [1, 3, 2]]).conn 2 0).getD c [])).length →
      k' < (createEntities triShape 1
        (((initState 2 4 [[0, 1, 2], [1, 3, 2]]).conn 2 0).getD c' [])).length →
      (((((compute_entities triShape 2 12 (initState 2 4 [[0, 1, 2], [1, 3, 2]]) 1).state?.getD
            (initState 2 4 [[0, 1, 2], [1, 3, 2]])).conn 2 1).getD c []).getD k 0 =
        ((((compute_entities triShape 2 12 (initState 2 4 [[0, 1, 2], [1, 3, 2]]) 1).state?.getD
            (initState 2 4 [[0, 1, 2], [1, 3, 2]])).conn 2 1).getD c' []).getD k' 0 ↔
        sortKey ((createEntities triShape 1
          (((initState 2 4 [[0, 1, 2], [1, 3, 2]]).conn 2 0).getD c [])).getD k []) =
          sortKey ((createEntities triShape 1
            (((initState 2 4 [[0, 1, 2], [1, 3, 2]]).conn 2 0).getD c' [])).getD k' []))) ∧
    (((compute_entities triShape 2 12 (initState 2 4 [[0, 1, 2], [1, 3, 2]]) 1).state?.getD
        (initState 2 4 [[0, 1, 2], [1, 3, 2]])).conn 1 0).Nodup ∧
    5 = ((List.range ((initState 2 4 [[0, 1, 2], [1, 3, 2]]).sizes 2)).flatMap (fun c =>
      (createEntities triShape 1
        (((initState 2 4 [[0, 1, 2], [1, 3, 2]]).conn 2 0).getD c [])).map
          sortKey)).toFinset.card) :=
  ⟨⟨by decide, by decide, by decide⟩,
   entity_dedup_characterization triShape 2 1 12 5 (initState 2 4 [[0, 1, 2], [1, 3, 2]]) _
     (by decide) (by decide) (by decide) (by decide) (by decide) (by decide) (by decide)
     (by decide) (by decide) (by decide) (by decide) rfl⟩

/-- Binding invariant of the cell loop of compute_entities after the first
`c` cells: every recorded (index, key) entry of a cell is bound to the slot
of that cell whose entry in the cell-entity row is exactly that index, and
every slot's recorded index points at a `connectivity_ev` row equal to the
slot's own sorted candidate tuple.  Unlike `EntInv` this holds for every
mesh, degenerate cells included. -/
def BindInv (ct : CellShape) (dim : Nat) (cv : List (List Nat)) (c : Nat)
    (acc : EntAcc) : Prop :=
  acc.ceList.length = c ∧
  acc.connCe.length = c ∧
  acc.counter = acc.connEv.length ∧
  acc.ceList.flatten.map Prod.fst = List.range acc.counter ∧
  acc.ceList.flatten.map Prod.snd = acc.connEv ∧
  (∀ i, ∀ p ∈ acc.ceList.getD i [], ∃ k, k < (tuplesOf ct dim cv i).length ∧
    p.2 = keyAt ct dim cv i k ∧ (acc.connCe.getD i []).getD k 0 = p.1) ∧
  (∀ i, i < c → (acc.connCe.getD i []).length = (tuplesOf ct dim cv i).length) ∧
  (∀ i k, i < c → k < (tuplesOf ct dim cv i).length →
    (acc.connCe.getD i []).getD k 0 < acc.counter ∧
    acc.connEv.getD ((acc.connCe.getD i []).getD k 0) [] = keyAt ct dim cv i k)

/-- Binding invariant of the slot loop of compute_entities after the first
`k` slots of cell `c`, relative to the state `base` at the start of the
cell. -/
def CellBindInv (ct : CellShape) (dim : Nat) (cv : List (List Nat)) (c : Nat)
    (base : EntAcc) (k : Nat) (st : CellAcc) : Prop :=
  st.myCe.length = k ∧
  st.counter = st.connEv.length ∧
  (base.ceList ++ [st.myList]).flatten.map Prod.fst = List.range st.counter ∧
  (base.ceList ++ [st.myList]).flatten.map Prod.snd = st.connEv ∧
  (∀ p ∈ st.myList, ∃ k', k' < k ∧ p.2 = keyAt ct dim cv c k' ∧
    st.myCe.getD k' 0 = p.1) ∧
  (∀ k', k' < k → st.myCe.getD k' 0 < st.counter ∧
    st.connEv.getD (st.myCe.getD k' 0) [] = keyAt ct dim cv c k') ∧
  (∃ ext, st.connEv = base.connEv ++ ext)

theorem slotStep_bind
    (ct : CellShape) (dim : Nat) (cv : List (List Nat)) (adjRow : List Nat)
    (base : EntAcc) (c k : Nat) (st : CellAcc)
    (hinv : CellBindInv ct dim cv c base k st)
    (hk : k < (tuplesOf ct dim cv c).length) :
    CellBindInv ct dim cv c base (k+1)
      (slotStep base.ceList c adjRow st ((tuplesOf ct dim cv c).getD k [])) := by
  obtain ⟨hmyce, hcnt, hfst, hsnd, hmyl, hix, hext⟩ := hinv
  have hkey : sortKey ((tuplesOf ct dim cv c).getD k []) = keyAt ct dim cv c k := rfl
  cases hfind : findEntityIn base.ceList c adjRow (keyAt ct dim cv c k) with
  | some e =>
    have hstep : slotStep base.ceList c adjRow st ((tuplesOf ct dim cv c).getD k []) =
        { st with myCe := st.myCe ++ [e] } := by
      simp only [slotStep, hkey, hfind]
    rw [hstep]
    dsimp only [CellBindInv]
    obtain ⟨c0, hc0mem, hc0lt, p, hpmem, hpkey, hpe⟩ :=
      findEntityIn_some_spec _ _ _ _ _ hfind
    have hpflat : p ∈ (base.ceList ++ [st.myList]).flatten := by
      rw [flatten_append_singleton]
      refine List.mem_append_left _ ?_
      rw [List.mem_flatten]
      exact ⟨base.ceList.getD c0 [], getD_mem _ _ (mem_getD_lt _ _ _ hpmem), hpmem⟩
    obtain ⟨helt, hegetd⟩ := entry_lookup _ _ _ hfst hsnd p hpflat
    refine ⟨by simp [hmyce], hcnt, hfst, hsnd, ?_, ?_, hext⟩
    · intro p2 hp2
      obtain ⟨k1, hk1, hkey1, hce1⟩ := hmyl p2 hp2
      refine ⟨k1, by omega, hkey1, ?_⟩
      rw [List.getD_append _ _ _ _ (by omega)]
      exact hce1
    · intro k1 hk1
      rcases Nat.lt_or_ge k1 k with hlt | hge
      · rw [List.getD_append _ _ _ _ (by omega)]
        exact hix k1 hlt
      · have hk1eq : k1 = k := by omega
        subst hk1eq
        have hgd : (st.myCe ++ [e]).getD k1 0 = e := by
          rw [← hmyce]
          exact getD_append_length _ _ _
        rw [hgd]
        rw [hpe] at helt hegetd
        exact ⟨helt, by rw [hegetd, hpkey]⟩
  | none =>
    have hstep : slotStep base.ceList c adjRow st ((tuplesOf ct dim cv c).getD k []) =
        { myList := st.myList ++ [(st.counter, keyAt ct dim cv c k)]
          myCe := st.myCe ++ [st.counter]
          connEv := st.connEv ++ [keyAt ct dim cv c k]
          counter := st.counter + 1 } := by
      simp only [slotStep, hkey, hfind]
    rw [hstep]
    dsimp only [CellBindInv]
    have hfl : (base.ceList ++ [st.myList ++ [(st.counter, keyAt ct dim cv c k)]]).flatten =
        (base.ceList ++ [st.myList]).flatten ++ [(st.counter, keyAt ct dim cv c k)] := by
      rw [flatten_append_singleton, flatten_append_singleton, List.append_assoc]
    refine ⟨by simp [hmyce], by simp [hcnt], ?_, ?_, ?_, ?_, ?_⟩
    · rw [hfl, List.map_append, hfst, List.range_succ, hcnt]
      rfl
    · rw [hfl, List.map_append, hsnd]
      rfl
    · intro p hp
      rw [List.mem_append] at hp
      rcases hp with hp | hp
      · obtain ⟨k1, h1, h2, h3⟩ := hmyl p hp
        refine ⟨k1, by omega, h2, ?_⟩
        rw [List.getD_append _ _ _ _ (by omega)]
        exact h3
      · rw [List.mem_singleton] at hp
        subst hp
        refine ⟨k, by omega, rfl, ?_⟩
        rw [← hmyce]
        exact getD_append_length _ _ _
    · intro k1 hk1
      rcases Nat.lt_or_ge k1 k with hlt | hge
      · obtain ⟨hlt2, hget⟩ := hix k1 hlt
        rw [List.getD_append _ _ _ _ (by omega)]
        refine ⟨by omega, ?_⟩
        rw [List.getD_append _ _ _ _ (by omega)]
        exact hget
      · have hk1eq : k1 = k := by omega
        subst hk1eq
        have hgd : (st.myCe ++ [st.counter]).getD k1 0 = st.counter := by
          rw [← hmyce]
          exact getD_append_length _ _ _
        rw [hgd]
        refine ⟨by omega, ?_⟩
        rw [hcnt]
        exact getD_append_length _ _ _
    · obtain ⟨ext, hextq⟩ := hext
      exact ⟨ext ++ [keyAt ct dim cv c k], by rw [hextq, List.append_assoc]⟩

theorem cellFold_bind
    (ct : CellShape) (dim : Nat) (cv : List (List Nat)) (adjRow : List Nat)
    (base : EntAcc) (c : Nat) :
    ∀ nrem k st, k + nrem = (tuplesOf ct dim cv c).length →
      CellBindInv ct dim cv c base k st →
      CellBindInv ct dim cv c base (tuplesOf ct dim cv c).length
        (((tuplesOf ct dim cv c).drop k).foldl
          (slotStep base.ceList c adjRow) st) := by
  intro nrem
  induction nrem with
  | zero =>
    intro k st hsum hinv
    rw [List.drop_eq_nil_of_le (by omega), List.foldl_nil]
    have hkl : k = (tuplesOf ct dim cv c).length := by omega
    rw [hkl] at hinv
    exact hinv
  | succ m ih =>
    intro k st hsum hinv
    have hklt : k < (tuplesOf ct dim cv c).length := by omega
    rw [List.drop_eq_getElem_cons hklt, List.foldl_cons]
    have hget : (tuplesOf ct dim cv c)[k] = (tuplesOf ct dim cv c).getD k [] :=
      (getD_eq_getElem _ _ _ hklt).symm
    rw [hget]
    exact ih (k+1) _ (by omega)
      (slotStep_bind ct dim cv adjRow base c k st hinv hklt)

theorem processCell_bind
    (ct : CellShape) (dim : Nat) (cv : List (List Nat)) (adjRow : List Nat)
    (acc : EntAcc) (c : Nat) (hacc : BindInv ct dim cv c acc) :
    BindInv ct dim cv (c+1) (processCell acc c adjRow (tuplesOf ct dim cv c)) := by
  obtain ⟨hal, hac, hacnt, hafst, hasnd, hakeys, halen2, haix⟩ := hacc
  have hst0 : CellBindInv ct dim cv c acc 0 ⟨[], [], acc.connEv, acc.counter⟩ := by
    refine ⟨rfl, hacnt, ?_, ?_, ?_, ?_, ⟨[], (List.append_nil _).symm⟩⟩
    · rw [flatten_append_singleton, List.append_nil]
      exact hafst
    · rw [flatten_append_singleton, List.append_nil]
      exact hasnd
    · intro p hp
      exact absurd hp (List.not_mem_nil p)
    · intro k hk
      exact absurd hk (by omega)
  have hfold := cellFold_bind ct dim cv adjRow acc c
    (tuplesOf ct dim cv c).length 0 ⟨[], [], acc.connEv, acc.counter⟩ (by omega) hst0
  rw [List.drop_zero] at hfold
  set r := (tuplesOf ct dim cv c).foldl (slotStep acc.ceList c adjRow)
    ⟨[], [], acc.connEv, acc.counter⟩ with hr
  obtain ⟨hrce, hrcnt, hrfst, hrsnd, hrmyl, hrix, hrext⟩ := hfold
  have hstep : processCell acc c adjRow (tuplesOf ct dim cv c) =
      { ceList := acc.ceList ++ [r.myList]
        connCe := acc.connCe ++ [r.myCe]
        connEv := r.connEv
        counter := r.counter } := by
    simp only [processCell, hr]
  rw [hstep]
  dsimp only [BindInv]
  have haccle : acc.counter ≤ r.counter := by
    obtain ⟨ext, hext⟩ := hrext
    have := congrArg List.length hext
    rw [List.length_append] at this
    omega
  have hevpre : ∀ i, i < acc.counter → r.connEv.getD i [] = acc.connEv.getD i [] := by
    intro i hi
    obtain ⟨ext, hext⟩ := hrext
    rw [hext, List.getD_append _ _ _ _ (by omega)]
  refine ⟨?_, ?_, hrcnt, hrfst, hrsnd, ?_, ?_, ?_⟩
  · simp [hal]
  · simp [hac]
  · intro i p hp
    have hi := mem_getD_lt _ _ _ hp
    simp only [List.length_append, hal, List.length_singleton] at hi
    rcases Nat.lt_or_ge i c with hic | hic
    · rw [List.getD_append _ _ _ _ (by omega : i < acc.ceList.length)] at hp
      obtain ⟨k1, hk1, hkey1, hce1⟩ := hakeys i p hp
      refine ⟨k1, hk1, hkey1, ?_⟩
      rw [List.getD_append _ _ _ _ (by omega : i < acc.connCe.length)]
      exact hce1
    · have hieq : i = c := by omega
      have hgd : (acc.ceList ++ [r.myList]).getD i [] = r.myList := by
        rw [hieq, ← hal]
        exact getD_append_length _ _ _
      have hgd2 : (acc.connCe ++ [r.myCe]).getD i [] = r.myCe := by
        rw [hieq, ← hac]
        exact getD_append_length _ _ _
      rw [hgd] at hp
      rw [hgd2, hieq]
      exact hrmyl p hp
  · intro i hi
    rcases Nat.lt_or_ge i c with hic | hic
    · rw [List.getD_append _ _ _ _ (by omega : i < acc.connCe.length)]
      exact halen2 i hic
    · have hieq : i = c := by omega
      have hgd : (acc.connCe ++ [r.myCe]).getD i [] = r.myCe := by
        rw [hieq, ← hac]
        exact getD_append_length _ _ _
      rw [hgd, hieq]
      exact hrce
  · intro i k hi hk
    rcases Nat.lt_or_ge i c with hic | hic
    · rw [List.getD_append _ _ _ _ (by omega : i < acc.connCe.length)]
      obtain ⟨hlt2, hget⟩ := haix i k hic hk
      exact ⟨by omega, by rw [hevpre _ hlt2]; exact hget⟩
    · have hieq : i = c := by omega
      have hgd : (acc.connCe ++ [r.myCe]).getD i [] = r.myCe := by
        rw [hieq, ← hac]
        exact getD_append_length _ _ _
      have hk2 : k < (tuplesOf ct dim cv c).length := by
        rw [← hieq]
        exact hk
      rw [hgd, hieq]
      exact hrix k hk2

theorem entitiesOfCells_bind (ct : CellShape) (dim : Nat) (cv adj : List (List Nat)) :
    ∀ n, BindInv ct dim cv n (entitiesOfCells ct dim n cv adj) := by
  intro n
  induction n with
  | zero =>
    refine ⟨rfl, rfl, rfl, rfl, rfl, ?_, ?_, ?_⟩
    · intro i p hp
      exact absurd hp (by cases i <;> exact List.not_mem_nil p)
    · intro i hi
      exact absurd hi (by omega)
    · intro i k hi
      exact absurd hi (by omega)
  | succ m ih =>
    rw [entitiesOfCells_succ]
    have hcell : tuplesOf ct dim cv m = createEntities ct dim (cv.getD m []) := rfl
    rw [← hcell]
    exact processCell_bind ct dim cv (adj.getD m []) _ m ih

/-- C1 amended.  After a generation pass of compute_entities(dim) on a fresh
well-formed mesh state, the stored rows of `Conn[dim][0]` are bound to their
discovery slots: for every cell `c` and local slot `k`, the entity index
recorded at `(c, k)` in `Conn[D][dim]` is below the returned count, and its
row of `Conn[dim][0]` is the ascending sort of slot `(c, k)`'s candidate
tuple — the same sorted tuple used for the duplicate lookup, not the
canonical local order given by the cell-shape oracle; moreover every entity
index below the count is recorded at some such slot, so each entity's row is
the sorted tuple of its own discovery slot. -/
theorem stored_entity_rows_are_sorted_site_tuples
    (ct : CellShape) (D dim fuel n : Nat) (s s' : MState)
    (hD : 0 < D) (hnv : 0 < s.sizes 0) (hND : 0 < s.sizes D)
    (hnum : (s.conn D 0).length = s.sizes D)
    (habs1 : (s.conn D D).length = 0) (habs2 : (s.conn 0 D).length = 0)
    (hszdim : s.sizes dim = 0)
    (hvlt : ∀ row ∈ s.conn D 0, ∀ v ∈ row, v < s.sizes 0)
    (hok : compute_entities ct D fuel s dim = .ok n s') :
    (∀ c k, c < s.sizes D →
      k < (createEntities ct dim ((s.conn D 0).getD c [])).length →
      ((s'.conn D dim).getD c []).getD k 0 < n ∧
      (s'.conn dim 0).getD (((s'.conn D dim).getD c []).getD k 0) [] =
        sortKey ((createEntities ct dim ((s.conn D 0).getD c [])).getD k [])) ∧
    (∀ i, i < n → ∃ c k, c < s.sizes D ∧
      k < (createEntities ct dim ((s.conn D 0).getD c [])).length ∧
      ((s'.conn D dim).getD c []).getD k 0 = i) := by
  have hdim0 : dim ≠ 0 := fun h => by rw [h] at hszdim; omega
  have hdimD : dim ≠ D := fun h => by rw [h] at hszdim; omega
  obtain ⟨fuel1, s1, a, rfl, hDD, hn, hs'⟩ :=
    compute_entities_ok_cases ct D fuel s s' dim n hszdim hok
  obtain ⟨hsz1, hcv1, hadj1⟩ :=
    run_connDD_fresh ct D fuel1 s s1 a hD hnv hND (by omega) habs1 habs2 hnum hvlt hDD
  set cv := s.conn D 0 with hcv
  set adj := s1.conn D D with hadjdef
  have hargs : entitiesOfCells ct dim (s1.sizes D) (s1.conn D 0) (s1.conn D D) =
      entitiesOfCells ct dim cv.length cv adj := by
    rw [hcv1, hsz1, ← hnum]
  obtain ⟨hel, hec, hecnt, hefst, hesnd, hekeys, helen2, heix⟩ :=
    entitiesOfCells_bind ct dim cv adj cv.length
  set acc := entitiesOfCells ct dim cv.length cv adj with haccdef
  have hCe : s'.conn D dim = acc.connCe := by
    rw [hs', setConn_conn_ne _ _ _ _ _ _ (fun hcd => hdimD hcd.1.symm), setConn_conn_self,
      hargs]
  have hEv : s'.conn dim 0 = acc.connEv := by
    rw [hs', setConn_conn_self, hargs]
  have hN : n = acc.connEv.length := by
    rw [hn, hargs]
  refine ⟨?_, ?_⟩
  · intro c k hc hk
    have hcL : c < cv.length := by omega
    obtain ⟨hixlt, hixkey⟩ := heix c k hcL hk
    rw [hCe, hEv]
    refine ⟨by omega, ?_⟩
    show acc.connEv.getD ((acc.connCe.getD c []).getD k 0) [] = keyAt ct dim cv c k
    exact hixkey
  · intro i hi
    have hicnt : i < acc.counter := by omega
    have himem : i ∈ acc.ceList.flatten.map Prod.fst := by
      rw [hefst]
      exact List.mem_range.mpr hicnt
    rw [List.mem_map] at himem
    obtain ⟨p, hpflat, hpi⟩ := himem
    rw [List.mem_flatten] at hpflat
    obtain ⟨l, hlmem, hpl⟩ := hpflat
    obtain ⟨c, hclen, hlc⟩ := List.mem_iff_getElem.mp hlmem
    have hpgetd : p ∈ acc.ceList.getD c [] := by
      rw [getD_eq_getElem _ _ _ hclen, hlc]
      exact hpl
    have hcL : c < cv.length := by
      rw [← hel]
      exact hclen
    obtain ⟨k, hk, hpkey, hce⟩ := hekeys c p hpgetd
    refine ⟨c, k, by omega, hk, ?_⟩
    rw [hCe, hce]
    exact hpi

/-- Witness for C1 (amended) on the permuted one-triangle mesh, whose slot-0
candidate tuple `[2, 1]` is stored as `[1, 2]`. -/
theorem stored_entity_rows_are_sorted_site_tuples_witness :
    ((0:Nat) < 2 ∧ (initState 2 3 [[0, 2, 1]]).sizes 1 = 0) ∧
    ((∀ c k, c < (initState 2 3 [[0, 2, 1]]).sizes 2 →
      k < (createEntities triShape 1
        (((initState 2 3 [[0, 2, 1]]).conn 2 0).getD c [])).length →
      ((((compute_entities triShape 2 12 (initState 2 3 [[0, 2, 1]]) 1).state?.getD
          (initState 2 3 [[0, 2, 1]])).conn 2 1).getD c []).getD k 0 < 3 ∧
      (((compute_entities triShape 2 12 (initState 2 3 [[0, 2, 1]]) 1).state?.getD
          (initState 2 3 [[0, 2, 1]])).conn 1 0).getD
        (((((compute_entities triShape 2 12 (initState 2 3 [[0, 2, 1]]) 1).state?.getD
          (initState 2 3 [[0, 2, 1]])).conn 2 1).getD c []).getD k 0) [] =
        sortKey ((createEntities triShape 1
          (((initState 2 3 [[0, 2, 1]]).conn 2 0).getD c [])).getD k [])) ∧
    (∀ i, i < 3 → ∃ c k, c < (initState 2 3 [[0, 2, 1]]).sizes 2 ∧
      k < (createEntities triShape 1
        (((initState 2 3 [[0, 2, 1]]).conn 2 0).getD c [])).length ∧
      ((((compute_entities triShape 2 12 (initState 2 3 [[0, 2, 1]]) 1).state?.getD
          (initState 2 3 [[0, 2, 1]])).conn 2 1).getD c []).getD k 0 = i)) :=
  ⟨⟨by decide, by decide⟩,
   stored_entity_rows_are_sorted_site_tuples triShape 2 1 12 3 (initState 2 3 [[0, 2, 1]]) _
     (by decide) (by decide) (by decide) (by decide) (by decide) (by decide) (by decide)
     (by decide) rfl⟩

end Dolfin
